import Mathlib

/-!
Verification development for the retrieval pipeline of the AI-Knowledge-Hub
repository.  The Python functions of `rag/retrieval/utils.py`,
`rag/retrieval/pdf_links.py`, `rag/segment/chunker.py` and
`app/services/{qa,formatting,prompting}.py` are shallowly embedded as
executable Lean definitions.  Python `int`/`float`/`str` coercions,
truthiness, and slicing are modelled explicitly by the `py*` helpers below.
Dictionaries holding chunk metadata are modelled by the structure `ChunkMeta`
whose fields are the keys actually accessed by the embedded code; an absent
key and a key set to `None` are both modelled by `Option.none` (the embedded
code distinguishes them only through `dict.setdefault`, which is modelled as
set-if-`none`).  Theorems about the spec claims follow after all definitions.
-/

namespace AIKH

/-- Python ASCII whitespace test used by `str.strip()`. -/
def pyIsSpace (c : Char) : Bool :=
  c.toNat = 32 || c.toNat = 9 || c.toNat = 10 || c.toNat = 13 || c.toNat = 11 || c.toNat = 12

/-- Strip leading and trailing whitespace from a character list. -/
def pyStripList (l : List Char) : List Char :=
  ((l.dropWhile pyIsSpace).reverse.dropWhile pyIsSpace).reverse

/-- Python `str.strip()` (no argument: ASCII whitespace; unicode spaces are not modelled). -/
def pyStrip (s : String) : String := String.mk (pyStripList s.toList)

/-- Python `str.lower()`, modelled as the characterwise basic-latin case mapping. -/
def pyLower (s : String) : String := String.mk (s.toList.map Char.toLower)

/-- ASCII digit test (Python `int()` also accepts unicode digits, which are not modelled). -/
def isAsciiDigit (c : Char) : Bool := 48 ≤ c.toNat && c.toNat ≤ 57

/-- Numeric value of an ASCII digit. -/
def digitVal (c : Char) : Nat := c.toNat - 48

/-- Remaining digits of a Python integer literal; single underscores are allowed
between digits (PEP 515 grouping, accepted by `int(str)`). -/
def pyDigitsRest : List Char → Nat → Option Nat
  | [], acc => some acc
  | '_' :: c :: rest, acc =>
    if isAsciiDigit c then pyDigitsRest rest (acc * 10 + digitVal c) else none
  | c :: rest, acc =>
    if isAsciiDigit c then pyDigitsRest rest (acc * 10 + digitVal c) else none

/-- A digit run must start with a digit (no leading underscore). -/
def pyDigitsStart : List Char → Option Nat
  | [] => none
  | c :: rest => if isAsciiDigit c then pyDigitsRest rest (digitVal c) else none

/-- Python `int(s)` for a string argument: surrounding whitespace is stripped,
an optional sign is accepted, then ASCII digits with `_` grouping; anything
else raises `ValueError`, modelled as `none`. -/
def pyIntStr (s : String) : Option Int :=
  match pyStripList s.toList with
  | '-' :: rest => (pyDigitsStart rest).map (fun n => -(n : Int))
  | '+' :: rest => (pyDigitsStart rest).map (fun n => (n : Int))
  | l => (pyDigitsStart l).map (fun n => (n : Int))

/-- Fold a digit list to a natural number. -/
def digitsToNat (l : List Char) : Nat := l.foldl (fun a c => a * 10 + digitVal c) 0

/-- Python `float(s)` for a string argument: optional sign, decimal digits with an
optional fraction and an optional exponent.  `inf`/`nan` and underscore grouping
are not modelled.  Values are modelled as exact rationals. -/
def pyFloatStr (s : String) : Option Rat :=
  let l := pyStripList s.toList
  let sl : Int × List Char :=
    match l with
    | '-' :: r => (-1, r)
    | '+' :: r => (1, r)
    | _ => (1, l)
  let ip := sl.2.takeWhile isAsciiDigit
  let l2 := sl.2.dropWhile isAsciiDigit
  let fl : List Char × List Char :=
    match l2 with
    | '.' :: r => (r.takeWhile isAsciiDigit, r.dropWhile isAsciiDigit)
    | _ => ([], l2)
  if ip.isEmpty && fl.1.isEmpty then none
  else
    let mant : Int := sl.1 * (digitsToNat (ip ++ fl.1) : Int)
    match fl.2 with
    | [] => some ((mant : Rat) / ((10 : Rat) ^ fl.1.length))
    | c :: r =>
      if c == 'e' || c == 'E' then
        let es : Int × List Char :=
          match r with
          | '-' :: t => (-1, t)
          | '+' :: t => (1, t)
          | _ => (1, r)
        let ed := es.2.takeWhile isAsciiDigit
        if ed.isEmpty || !(es.2.dropWhile isAsciiDigit).isEmpty then none
        else some ((mant : Rat) * (10 : Rat) ^ (es.1 * (digitsToNat ed : Int) - fl.1.length))
      else none

/-- Truncation toward zero, the behaviour of Python `int(float)`. -/
def ratTrunc (q : Rat) : Int := if 0 ≤ q then q.floor else -((-q).floor)

/-- A loosely typed Python value as it appears in metadata dictionaries and
filter payloads: an int, a float (modelled as an exact rational), a string, a
list, or any other object (`vother`, convertible to neither `int` nor `float`). -/
inductive PyVal where
  | vint (n : Int)
  | vflt (q : Rat)
  | vstr (s : String)
  | vlist (xs : List PyVal)
  | vother
deriving Repr

/-- Python `int(v)`: ints unchanged, floats truncated toward zero, strings parsed;
anything else raises (`none`). -/
def pyIntOf : PyVal → Option Int
  | .vint n => some n
  | .vflt q => some (ratTrunc q)
  | .vstr s => pyIntStr s
  | .vlist _ => none
  | .vother => none

/-- Python `float(v)`: ints widened, floats unchanged, strings parsed;
anything else raises (`none`). -/
def pyFloatOf : PyVal → Option Rat
  | .vint n => some (n : Rat)
  | .vflt q => some q
  | .vstr s => pyFloatStr s
  | .vlist _ => none
  | .vother => none

/-- Python `str(v)`.  Only the int and string cases are exercised by the embedded
code on realistic inputs; the remaining cases are placeholders. -/
def pyStr : PyVal → String
  | .vint n => toString n
  | .vflt q => toString q
  | .vstr s => s
  | .vlist _ => "[...]"
  | .vother => "<object>"

/-- Python `a or b` where `a` is an optional string: `None` and `""` are falsy. -/
def pyOrStr (a : Option String) (b : String) : String :=
  match a with
  | some s => if s = "" then b else s
  | none => b

/-- Python `a or b` for two optional strings, keeping the result optional. -/
def pyOrOpt (a b : Option String) : Option String :=
  match a with
  | some s => if s = "" then b else some s
  | none => b

/-- Python `kw in text` (contiguous substring test). -/
def pyInStr (kw text : String) : Bool := decide (kw.toList <:+: text.toList)

/-- Python `s[:m]` on strings, including the negative-bound case. -/
def pySliceToStr (s : String) (m : Int) : String :=
  if 0 ≤ m then String.mk (s.toList.take m.toNat)
  else String.mk (s.toList.take ((s.length : Int) + m).toNat)

/-- Python `xs[i:]` on lists, including the negative-start case. -/
def pySliceFromList {α : Type} (xs : List α) (i : Int) : List α :=
  if i < 0 then xs.drop ((xs.length : Int) + i).toNat
  else xs.drop i.toNat

/-- Python `f"{j:04d}"`: zero-pad to total width 4, the sign included in the width. -/
def pyFormat04 (j : Int) : String :=
  let digits := toString j.natAbs
  if j < 0 then "-" ++ String.mk (List.replicate (3 - digits.length) '0') ++ digits
  else String.mk (List.replicate (4 - digits.length) '0') ++ digits

/-- Split a character list on a non-empty separator, non-overlapping and left
to right as in Python `str.split(sep)`.  The fuel argument (instantiated with
the list length) makes the recursion structural. -/
def pySplitFuel (sep : List Char) : Nat → List Char → List (List Char)
  | 0, l => [l]
  | fuel + 1, l =>
    match l with
    | [] => [[]]
    | c :: rest =>
      if sep.isPrefixOf l then [] :: pySplitFuel sep fuel (l.drop sep.length)
      else
        match pySplitFuel sep fuel rest with
        | [] => [[c]]
        | seg :: segs => (c :: seg) :: segs

/-- Python `s.split(sep)` for a non-empty separator. -/
def pySplitOn (s sep : String) : List String :=
  (pySplitFuel sep.toList s.toList.length s.toList).map String.mk

/-- Replace every non-overlapping occurrence of `pat` left to right, as in
Python `str.replace` (only used with non-empty patterns). -/
def pyReplaceFuel (pat repl : List Char) : Nat → List Char → List Char
  | 0, l => l
  | fuel + 1, l =>
    match l with
    | [] => []
    | c :: rest =>
      if pat.isPrefixOf l then repl ++ pyReplaceFuel pat repl fuel (l.drop pat.length)
      else c :: pyReplaceFuel pat repl fuel rest

/-- Python `s.replace(pat, repl)` for a non-empty pattern. -/
def pyReplace (s pat repl : String) : String :=
  String.mk (pyReplaceFuel pat.toList repl.toList s.toList.length s.toList)

/-- Python `s.partition(m)` restricted to the pieces the code uses: the part
before the first occurrence of `m` and the part after it (empty when `m` does
not occur, as in Python where the tail of the triple is then `""`). -/
def pyPartition (s m : String) : String × String :=
  match pySplitOn s m with
  | [] => (s, "")
  | [x] => (x, "")
  | x :: rest => (x, String.intercalate m rest)

/-- Python `s.split("_chunk")[0]`: the prefix before the first `_chunk` marker. -/
def strBeforeChunk (s : String) : String := (pySplitOn s "_chunk").headD s

/-- `neighbor_ids` from `rag/retrieval/utils.py` (lines 17-29): the ids within
`±neighbors` of `chunk_id`, parsed from its `_chunkNNNN` suffix. -/
def neighborIds (chunkId : String) (neighbors : Int) : List String :=
  if neighbors ≤ 0 then [chunkId]
  else
    let bt := pyPartition chunkId "_chunk"
    match pyIntStr bt.2 with
    | none => [chunkId]
    | some idx =>
      (List.range (2 * neighbors + 1).toNat).map
        (fun k => bt.1 ++ "_chunk" ++ pyFormat04 (idx - neighbors + k))

/-- A chunk metadata dictionary, with exactly the keys the embedded code reads
or writes.  `Option.none` models both an absent key and an explicit `None`. -/
structure ChunkMeta where
  id : Option String := none
  doc_id : Option String := none
  title : Option String := none
  doc_title : Option String := none
  text : Option String := none
  preview : Option String := none
  year : Option PyVal := none
  page : Option PyVal := none
  filename : Option String := none
  rel_path : Option String := none
  source_url : Option String := none
  url : Option String := none
  score : Option PyVal := none
deriving Repr

/-- `passes_filters` from `rag/retrieval/utils.py` (lines 54-78): keyword filter
against the lowercased text/preview, then year bounds against `int(rec["year"])`
when that conversion succeeds. -/
def passesFilters (rec : ChunkMeta) (containsAny : List String)
    (yearMin yearMax : Option Int) : Bool :=
  let kwOk :=
    if containsAny.isEmpty then true
    else
      let text := pyLower (pyOrStr rec.text (pyOrStr rec.preview ""))
      containsAny.any (fun kw => pyInStr kw text)
  if !kwOk then false
  else
    let yearInt : Option Int := rec.year.bind pyIntOf
    let minOk :=
      match yearMin, yearInt with
      | some mn, some y => decide (mn ≤ y)
      | _, _ => true
    let maxOk :=
      match yearMax, yearInt with
      | some mx, some y => decide (y ≤ mx)
      | _, _ => true
    minOk && maxOk

/-- The neighbour loop of `stitch_preview` (lines 101-123): walk the neighbour
ids, skipping missing records, records of a different document, and empty
texts; respect the character budget unless `no_truncate`.  Returns the list of
appended parts; an early `break` returns without the remaining parts. -/
def stitchGo (find : String → Option ChunkMeta) (docId : String) (noTruncate : Bool)
    (maxChars : Int) : List String → Int → List String
  | [], _ => []
  | nid :: rest, totalLen =>
    match find nid with
    | none => stitchGo find docId noTruncate maxChars rest totalLen
    | some rec =>
      let recDoc := pyOrStr rec.doc_id (strBeforeChunk nid)
      if recDoc ≠ docId then stitchGo find docId noTruncate maxChars rest totalLen
      else
        let txt := pyStrip (pyReplace (pyOrStr rec.text "") "\n" " ")
        if txt = "" then stitchGo find docId noTruncate maxChars rest totalLen
        else if noTruncate then txt :: stitchGo find docId noTruncate maxChars rest totalLen
        else
          let room := maxChars - totalLen
          if room ≤ 0 then []
          else if (txt.length : Int) ≤ room then
            txt :: stitchGo find docId noTruncate maxChars rest (totalLen + txt.length)
          else [pySliceToStr txt room]

/-- `stitch_preview` from `rag/retrieval/utils.py` (lines 81-128).  The lookup
dictionary is modelled by its `get` method, the only way the function uses it. -/
def stitchPreview (center : ChunkMeta) (find : String → Option ChunkMeta)
    (neighbors : Int) (maxChars : Int) (noTruncate : Bool) : String :=
  let chunkId := pyOrStr center.id ""
  if chunkId = "" then pySliceToStr (pyOrStr center.text "") maxChars
  else
    let docId := pyOrStr center.doc_id (strBeforeChunk chunkId)
    let parts := stitchGo find docId noTruncate maxChars (neighborIds chunkId neighbors) 0
    if parts.isEmpty then
      pySliceToStr (pyReplace (pyOrStr center.text "") "\n" " ") maxChars
    else
      let joined := String.intercalate " " parts
      if noTruncate then joined else pySliceToStr joined maxChars

/-- The dataclass `RetrievalSettings` from `rag/retrieval/utils.py` (lines 131-139). -/
structure RetrievalSettings where
  contains : List String
  year_min : Option Int
  year_max : Option Int
  neighbors : Int
  per_doc : Int
  max_preview_chars : Int
  max_snippet_chars : Int
deriving Repr, DecidableEq

/-- A raw filter payload: the keys `resolve_retrieval_settings` reads, each
holding an arbitrary Python value or absent/None. -/
structure Filters where
  contains : Option PyVal := none
  year_min : Option PyVal := none
  year_max : Option PyVal := none
  neighbors : Option PyVal := none
  per_doc : Option PyVal := none
  max_preview_chars : Option PyVal := none
  max_snippet_chars : Option PyVal := none
deriving Repr

/-- The inner `_to_int` of `resolve_retrieval_settings` (lines 146-155):
`None`/`""` give the default, a convertible value is clamped from below by
`minimum`, a failed conversion gives the default. -/
def toIntPy (value : Option PyVal) (dflt : Option Int) (minimum : Option Int) : Option Int :=
  match value with
  | none => dflt
  | some (.vstr "") => dflt
  | some v =>
    match pyIntOf v with
    | some n =>
      match minimum with
      | some m => some (if n < m then m else n)
      | none => some n
    | none => dflt

/-- Order-preserving deduplication with a seen-set, as in lines 165-171. -/
def dedupFirst : List String → List String → List String
  | [], _ => []
  | x :: xs, seen => if x ∈ seen then dedupFirst xs seen else x :: dedupFirst xs (x :: seen)

/-- Python `a or d` for an optional int result (`None` and `0` are falsy). -/
def pyOrIntD (o : Option Int) (d : Int) : Int :=
  match o with
  | none => d
  | some n => if n = 0 then d else n

/-- The keyword normalisation of lines 157-163: a comma-separated string or a
list of values, each entry stripped, lowercased and kept when non-empty. -/
def rawContains : Option PyVal → List String
  | some (.vstr s) =>
    (pySplitOn s ",").filterMap
      (fun t => let st := pyStrip t; if st = "" then none else some (pyLower st))
  | some (.vlist xs) =>
    xs.filterMap
      (fun v => let st := pyStrip (pyStr v); if st = "" then none else some (pyLower st))
  | _ => []

/-- `resolve_retrieval_settings` from `rag/retrieval/utils.py` (lines 142-188). -/
def resolveRetrievalSettings (filters? : Option Filters) : RetrievalSettings :=
  let f := filters?.getD {}
  { contains := dedupFirst (rawContains f.contains) []
    year_min := toIntPy f.year_min none none
    year_max := toIntPy f.year_max none none
    neighbors := (toIntPy f.neighbors (some 1) (some 0)).getD 1
    per_doc := (toIntPy f.per_doc (some 2) (some 1)).getD 2
    max_preview_chars := pyOrIntD (toIntPy f.max_preview_chars (some 1800) (some 100)) 1800
    max_snippet_chars := pyOrIntD (toIntPy f.max_snippet_chars (some 500) (some 120)) 500 }

/-- The `__dict__` of a resolved `RetrievalSettings`, re-read as a raw filter
payload (a Python list of strings for `contains`, ints or `None` elsewhere). -/
def settingsToFilters (s : RetrievalSettings) : Filters :=
  { contains := some (.vlist (s.contains.map PyVal.vstr))
    year_min := s.year_min.map PyVal.vint
    year_max := s.year_max.map PyVal.vint
    neighbors := some (.vint s.neighbors)
    per_doc := some (.vint s.per_doc)
    max_preview_chars := some (.vint s.max_preview_chars)
    max_snippet_chars := some (.vint s.max_snippet_chars) }

/-- A doc-level metadata record from `docs.jsonl` as read by `_doc_lookup`. -/
structure DocInfo where
  filename : Option String := none
  source_url : Option String := none
deriving Repr

/-- The environment of `rag/retrieval/pdf_links.py`: the lazily loaded
`_doc_lookup()` map and the filesystem probe `_default_filename` (which
returns `<doc_id>.pdf` when that file exists under the PDF root). -/
structure PdfEnv where
  docLookup : String → Option DocInfo
  defaultFilename : String → Option String

/-- The candidate id list of `get_pdf_filename` (lines 64-68). -/
def pdfCandidates (docId : String) : List String :=
  [docId]
    ++ (if pyInStr " " docId then [pyReplace docId " " "%20"] else [])
    ++ (if pyInStr "%20" docId then [pyReplace docId "%20" " "] else [])

/-- `get_pdf_filename` (lines 58-83): the first candidate with a doc-lookup
entry wins (its filename is returned when truthy, otherwise the lookup loop
breaks); then the first candidate with an existing default file. -/
def getPdfFilename (env : PdfEnv) (docId : String) : Option String :=
  if docId = "" then none
  else
    let cands := pdfCandidates docId
    let step1 : Option String :=
      match cands.findSome? (fun k => env.docLookup k) with
      | some info =>
        match info.filename with
        | some f => if f = "" then none else some f
        | none => none
      | none => none
    match step1 with
    | some f => some f
    | none =>
      cands.findSome? (fun k =>
        match env.defaultFilename k with
        | some f => if f = "" then none else some f
        | none => none)

/-- `build_pdf_url` (lines 86-97). -/
def buildPdfUrl (env : PdfEnv) (docId : String) (page : Option Int) : Option String :=
  if docId = "" then none
  else
    match getPdfFilename env docId with
    | none => none
    | some _ =>
      let base := "/pdf/by-id/" ++ docId
      match page with
      | none => some base
      | some p => some (base ++ "#page=" ++ toString (max 1 p))

/-- `_coerce_page` (lines 100-108): unwrap a non-empty list, drop
`None`/`""`/`[]`, convert to int clamped to at least 1. -/
def coercePage : Option PyVal → Option Int
  | none => none
  | some v =>
    let w := match v with
      | .vlist (x :: _) => x
      | x => x
    match w with
    | .vstr "" => none
    | .vlist [] => none
    | u => (pyIntOf u).map (fun n => max 1 n)

/-- `enrich_metadata` (lines 111-138): populate filename, rel_path, source_url,
coerced page and served URL.  `setdefault` is modelled as set-if-`none`. -/
def enrichMetadata (env : PdfEnv) (meta : ChunkMeta) : ChunkMeta :=
  let docId := pyStrip (pyOrStr meta.doc_id "")
  if docId = "" then meta
  else
    let info := (env.docLookup docId).getD {}
    let filename? := pyOrOpt meta.filename (pyOrOpt info.filename (env.defaultFilename docId))
    let meta :=
      match filename? with
      | some f =>
        if f = "" then meta
        else { meta with filename := some (meta.filename.getD f),
                         rel_path := some (meta.rel_path.getD f) }
      | none => meta
    let meta :=
      match pyOrOpt meta.source_url info.source_url with
      | some su => if su = "" then meta else { meta with source_url := some su }
      | none => meta
    let page? := coercePage meta.page
    let meta :=
      match page? with
      | some p => { meta with page := some (.vint p) }
      | none => meta
    match buildPdfUrl env docId page? with
    | some u => if u = "" then meta else { meta with url := some u }
    | none => meta

/-- One raw FAISS hit, a dictionary with the keys `prepare_hits` reads. -/
structure Hit where
  id : Option String := none
  score : Option PyVal := none
  metadata : Option ChunkMeta := none
deriving Repr

/-- The association list modelling the mutable `lookup` dict of `prepare_hits`. -/
abbrev Lookup := List (String × ChunkMeta)

/-- Dictionary get on the lookup list. -/
def lkFind (l : Lookup) (k : String) : Option ChunkMeta :=
  (l.find? (fun e => e.1 == k)).map (fun e => e.2)

/-- The metadata source passed to `prepare_hits`.  `initLookup` is the result of
the `get_meta_map` probe of lines 202-207 (empty when the attribute is missing
or the call raises); `getMeta` is the `get_metadata` point lookup of lines
218-224 (`none` when the attribute is missing, the call raises, or it returns a
falsy value, none of which insert into the lookup). -/
structure Store where
  initLookup : Lookup := []
  getMeta : String → Option ChunkMeta := fun _ => none

/-- A prepared hit `{"id": ..., "score": ..., "metadata": ...}` (line 263). -/
structure PreparedHit where
  id : String
  score : Rat
  metadata : ChunkMeta
deriving Repr

/-- Outcome of the per-hit body of the `prepare_hits` loop: a `continue` with
the (possibly grown) lookup, an append carrying the entry and the per-doc
counter key, or an uncaught `float()` conversion error. -/
inductive HitOutcome where
  | skip (lk : Lookup)
  | keep (entry : PreparedHit) (docId : String) (lk : Lookup)
  | fail (msg : String)

/-- The lookup growth of lines 218-224: fetch metadata for an id not yet in the
lookup; only a truthy result is inserted (at the end, a fresh dict key). -/
def lookupGrow (store : Store) (lk : Lookup) (chunkId : String) : Lookup :=
  if (lkFind lk chunkId).isNone then
    match store.getMeta chunkId with
    | some extra => lk ++ [(chunkId, extra)]
    | none => lk
  else lk

/-- The doc id of line 229: `meta.get("doc_id") or chunk_id.split("_chunk")[0]`. -/
def resolvedDocId (chunkId : String) (baseMeta : ChunkMeta) : String :=
  pyOrStr baseMeta.doc_id (strBeforeChunk chunkId)

/-- The id/doc_id/title normalisation of lines 228-233. -/
def withIds (chunkId docId : String) (m : ChunkMeta) : ChunkMeta :=
  let m1 := { m with id := some chunkId, doc_id := some docId }
  let title := pyOrStr m1.title (pyOrStr m1.doc_title (pyOrStr (some docId) chunkId))
  { m1 with title := some title }

/-- The year coercion of lines 234-239: a string year is converted to int when
possible, otherwise left as the string. -/
def yearCoerce (m : ChunkMeta) : ChunkMeta :=
  match m.year with
  | some (.vstr s) =>
    match pyIntStr s with
    | some n => { m with year := some (.vint n) }
    | none => m
  | _ => m

/-- The stitch lookup of line 249: the grown lookup when non-empty, else the
singleton `{chunk_id: meta}`. -/
def previewFind (lk : Lookup) (chunkId : String) (meta : ChunkMeta) :
    String → Option ChunkMeta :=
  if lk.isEmpty then (fun k => if k = chunkId then some meta else none) else lkFind lk

/-- The per-hit body of `prepare_hits` (lines 212-261), up to and including the
score coercion.  Mirrors the source order: id resolution, lookup growth via
`get_metadata`, metadata normalisation, year coercion, enrichment, keyword/year
filters, per-doc cap, preview stitching, `float(score)`. -/
def processHit (env : PdfEnv) (store : Store) (settings : RetrievalSettings)
    (lk : Lookup) (cnt : String → Nat) (hit : Hit) : HitOutcome :=
  let md := hit.metadata.getD {}
  let chunkId := pyOrStr md.id (pyOrStr hit.id "")
  if chunkId = "" then .skip lk
  else
    let lk := lookupGrow store lk chunkId
    let baseMeta := (lkFind lk chunkId).getD md
    let docId := resolvedDocId chunkId baseMeta
    let meta := enrichMetadata env (yearCoerce (withIds chunkId docId baseMeta))
    if !(passesFilters meta settings.contains settings.year_min settings.year_max) then .skip lk
    else if settings.per_doc > 0 && decide ((cnt docId : Int) ≥ settings.per_doc) then .skip lk
    else
      let preview := stitchPreview meta (previewFind lk chunkId meta) settings.neighbors
        settings.max_preview_chars false
      let meta := { meta with preview := some preview }
      let meta := { meta with text := some (meta.text.getD preview) }
      match hit.score with
      | none =>
        .keep { id := chunkId, score := 0, metadata := { meta with score := some (.vflt 0) } }
          docId lk
      | some v =>
        match pyFloatOf v with
        | some q =>
          .keep { id := chunkId, score := q, metadata := { meta with score := some (.vflt q) } }
            docId lk
        | none => .fail "float(score) raised"

/-- Increment of the `defaultdict(int)` per-doc counter. -/
def bumpCnt (cnt : String → Nat) (d : String) : String → Nat :=
  fun x => if x = d then cnt d + 1 else cnt x

/-- The early-stop test of line 266: after an append, stop once
`len(processed) >= limit`. -/
def stopAt (limit : Option Int) (produced : Nat) : Bool :=
  match limit with
  | some l => decide ((produced : Int) ≥ l)
  | none => false

/-- The `prepare_hits` loop over the raw hits, threading the mutable lookup,
the per-doc counters and the number of appended entries. -/
def prepGo (env : PdfEnv) (store : Store) (settings : RetrievalSettings) (limit : Option Int) :
    List Hit → Lookup → (String → Nat) → Nat → Except String (List PreparedHit)
  | [], _, _, _ => .ok []
  | hit :: rest, lk, cnt, n =>
    match processHit env store settings lk cnt hit with
    | .fail msg => .error msg
    | .skip lk2 => prepGo env store settings limit rest lk2 cnt n
    | .keep entry docId lk2 =>
      if stopAt limit (n + 1) then .ok [entry]
      else (prepGo env store settings limit rest lk2 (bumpCnt cnt docId) (n + 1)).map
        (fun out => entry :: out)

/-- `prepare_hits` from `rag/retrieval/utils.py` (lines 191-269).  A raised
`float()` conversion error propagates as `Except.error`. -/
def prepareHits (env : PdfEnv) (store : Store) (hits : List Hit)
    (settings : RetrievalSettings) (limit : Option Int) : Except String (List PreparedHit) :=
  if hits.isEmpty then .ok []
  else prepGo env store settings limit hits store.initLookup (fun _ => 0) 0

/-- A chunk emitted by `_pack_blocks_with_overlap`: the tuple
`(chunk_text, page_start, page_end)` with the chunk text represented by its
token list (the tokenizer is an external collaborator; `decode` followed by
`encode` is modelled as the identity on token lists). -/
structure TChunk where
  tokens : List Nat
  page_start : Nat
  page_end : Nat
deriving Repr, DecidableEq

/-- The loop state of `_pack_blocks_with_overlap` (lines 87-91). -/
structure PackState where
  out : List TChunk
  cur : List Nat
  chunkFirstPage : Nat
  curPageSeen : Option Nat
  lastChunk : Option (List Nat)

/-- The overlap tail of line 108: `last[-overlap:] if len(last) > overlap else
last`. -/
def overlapTail (overlap : Int) (last : List Nat) : List Nat :=
  if (last.length : Int) > overlap then pySliceFromList last (-overlap) else last

/-- One iteration of the inner loop of `_pack_blocks_with_overlap`
(lines 93-113) on the block `pb.2` of page `pb.1`. -/
def packStep (maxTokens overlap : Int) (s : PackState) (pb : Nat × List Nat) : PackState :=
  let pgIdx := pb.1
  let t := pb.2
  let s := if s.cur.isEmpty then { s with chunkFirstPage := pgIdx } else s
  if (s.cur.length + t.length : Int) ≤ maxTokens then
    { s with cur := s.cur ++ t, curPageSeen := some pgIdx }
  else
    let flushed : List TChunk × Option (List Nat) :=
      if s.cur.isEmpty then (s.out, s.lastChunk)
      else (s.out ++ [⟨s.cur, s.chunkFirstPage, s.curPageSeen.getD pgIdx⟩], some s.cur)
    let cur :=
      match flushed.2 with
      | some last =>
        if overlap ≠ 0 && !last.isEmpty then overlapTail overlap last ++ t else t
      | none => t
    { out := flushed.1, cur := cur, chunkFirstPage := pgIdx, curPageSeen := some pgIdx,
      lastChunk := flushed.2 }

/-- The final flush of lines 116-117. -/
def packFinish (s : PackState) : List TChunk :=
  if s.cur.isEmpty then s.out
  else s.out ++ [⟨s.cur, s.chunkFirstPage, s.curPageSeen.getD s.chunkFirstPage⟩]

/-- The page-indexed block sequence traversed by the nested loops of
`_pack_blocks_with_overlap`; the two nested `for` loops are equivalent to one
pass over this flattened sequence because all iteration state lives in the
loop variables modelled by `PackState`. -/
def indexedBlocks (pages : List (List (List Nat))) : List (Nat × List Nat) :=
  pages.enum.flatMap (fun pb => pb.2.map (fun b => (pb.1, b)))

/-- `_pack_blocks_with_overlap` from `rag/segment/chunker.py` (lines 79-119). -/
def packBlocksWithOverlap (pages : List (List (List Nat))) (maxTokens overlap : Int) :
    List TChunk :=
  packFinish ((indexedBlocks pages).foldl (packStep maxTokens overlap) ⟨[], [], 0, none, none⟩)

/-- `chunk_text` (lines 139-150).  The regex stage (`_split_pages`,
`_blocks_for_page`) and the external tokenizer are modelled by presenting the
document as pages of blocks, each block given by its token list; `chunk_text`
then just packs them.  Note the function performs no validation of
`max_tokens`/`overlap`. -/
def chunkText (pages : List (List (List Nat))) (maxTokens overlap : Int) : List TChunk :=
  packBlocksWithOverlap pages maxTokens overlap

/-- A document record as consumed by `chunk_record`: its required `id` and its
`text` in the pages-of-block-token-lists presentation. -/
structure DocRecord where
  id : String
  text : List (List (List Nat))
deriving Repr

/-- A chunk record emitted by `chunk_record` (lines 176-186); the character
level `chars` field of the decoded text is not modelled. -/
structure ChunkRec where
  id : String
  doc_id : String
  chunk_index : Nat
  tokens : List Nat
  n_tokens : Nat
  page_start : Nat
  page_end : Nat
  source_hints : List String
deriving Repr, DecidableEq

/-- `chunk_record` (lines 152-191).  The Markdown-table sniff
`_chunk_has_table` and the OCR page set `_parse_ocr_pages(meta)` are
parameters; `n_tokens = len(encode(txt))` is the chunk token count under the
round-trip modelling of the tokenizer. -/
def chunkRecord (hasTable : List Nat → Bool) (ocrPages : List Nat) (rec : DocRecord)
    (maxTokens overlap : Int) : List ChunkRec :=
  (chunkText rec.text maxTokens overlap).enum.map (fun ic =>
    let i : Nat := ic.1 + 1
    let ch := ic.2
    let hints :=
      (if hasTable ch.tokens then ["table"] else [])
        ++ (if (List.range (ch.page_end + 1 - ch.page_start)).any
              (fun j => (ch.page_start + j) ∈ ocrPages) then ["ocr"] else [])
    { id := rec.id ++ "_chunk" ++ pyFormat04 (Int.ofNat i)
      doc_id := rec.id
      chunk_index := i
      tokens := ch.tokens
      n_tokens := ch.tokens.length
      page_start := ch.page_start
      page_end := ch.page_end
      source_hints := hints })

/-- A normalised citation payload from `format_citation`
(`app/services/formatting.py` lines 73-97), plus the `sid` added by `ask`. -/
structure Citation where
  sid : Option String := none
  doc_id : Option String := none
  title : Option String := none
  year : Option PyVal := none
  page : Option Int := none
  score : Option Rat := none
  snippet : String := ""
  url : Option String := none
  source_url : Option String := none
  rel_path : Option String := none
  filename : Option String := none
deriving Repr

/-- `format_snippet` from `app/services/formatting.py` (lines 11-27). -/
def formatSnippet (text : String) (length : Int) : String :=
  if text = "" then ""
  else
    let t := pyStrip text
    if (t.length : Int) ≤ length then t
    else pySliceToStr t length ++ "…"

/-- `format_metadata` (lines 30-60): parenthesised title, year, page.  An
all-empty metadata dictionary yields `""` through the empty-parts branch. -/
def formatMetadata (md : ChunkMeta) : String :=
  let parts :=
    (match md.title with
     | some t => if t = "" then [] else [t]
     | none => [])
    ++ (match md.year with
        | some (.vstr "") => []
        | some v => [pyStr v]
        | none => [])
    ++ (match md.page with
        | some (.vstr "") => []
        | some v => ["p" ++ pyStr v]
        | none => [])
  if parts.isEmpty then "" else "(" ++ String.intercalate ", " parts ++ ")"

/-- `format_citation` (lines 73-97). -/
def formatCitation (hit : PreparedHit) : Citation :=
  let md := hit.metadata
  { title := md.title
    year := md.year
    page := coercePage md.page
    doc_id := md.doc_id
    score := some hit.score
    snippet := pyOrStr md.preview (pyOrStr md.text "")
    url := md.url
    source_url := md.source_url
    rel_path := pyOrOpt md.rel_path md.filename
    filename := md.filename }

/-- The `SYSTEM` prompt constant of `app/services/prompting.py`. -/
def systemPrompt : String :=
  "You are a diligent assistant for Australian cotton R&D. "
    ++ "Respond ONLY with information supported by the provided source passages. "
    ++ "Present the answer in three sections:\n"
    ++ "1. **Summary** – 4-5 sentences synthesising the main answer\n"
    ++ "2. **Key Points** – 3–6 concise bullets, each ending with one or more [S#] citations (include page numbers if supplied, e.g. [S2 p.14]).\n"
    ++ "3. **Sources** – list each citation as `S# — Title (Year, p.X)` using the provided metadata.\n"
    ++ "Additional guidance:\n"
    ++ "- Prefer concrete numbers, units, and years.\n"
    ++ "- If multiple passages support a claim, stack citations like [S1][S3].\n"
    ++ "- If the context is insufficient, state \"I don\x27t know based on the provided sources.\" Do NOT guess.\n"
    ++ "- Do not introduce external knowledge or unrelated commentary."

/-- `build_user_prompt` from `app/services/prompting.py` (the rendered
`USER_TPL`). -/
def buildUserPrompt (question sources : String) : String :=
  "Question:\n" ++ pyStrip question ++ "\n\nSource Passages:\n" ++ pyStrip sources
    ++ "\n\nWrite the answer now. Follow the Rules exactly."

/-- Token usage as returned by the chat collaborator. -/
structure LLMUsage where
  prompt_tokens : Nat := 0
  completion_tokens : Nat := 0
deriving Repr, DecidableEq

/-- The `usage` mapping of a QA response: an error marker
(`{"error": ...}`), a zero-retrieval marker (`{"retrieved": n}`), or the
collaborator usage passed through. -/
inductive Usage where
  | uerror (s : String)
  | uretrieved (n : Nat)
  | ullm (u : LLMUsage)
deriving Repr, DecidableEq

/-- The response dictionary of `QAPipeline.ask`. -/
structure AskResult where
  answer : String
  sources : List Citation
  usage : Usage
deriving Repr

/-- A collaborator invocation performed by `ask`, in order. -/
inductive CallEvent where
  | embedCall
  | queryCall
  | rerankCall
  | chatCall
deriving Repr, DecidableEq

/-- The collaborators of `QAPipeline` (`app/services/qa.py`), as pure
functions.  `queryFull` models `store.query(qv, **query_kwargs)` and may fail
with the `TypeError` that triggers the minimal-signature retry `queryBasic`;
`rerank` may fail with any exception, which `ask` absorbs. -/
structure QAEnv where
  embedQuery : String → List Rat
  queryFull : List Rat → Int → Option String → Option (Option Int × Option Int) →
    Except Unit (List Hit)
  queryBasic : List Rat → Int → List Hit
  rerank : String → List Hit → Except Unit (List Hit)
  chat : String → String → Rat → Int → String × LLMUsage
  store : Store
  pdf : PdfEnv

/-- The formatted source line of the `Sources:` section of `ask`
(`app/services/qa.py` lines 109-131). -/
def citationSourceLine (cit : Citation) : String :=
  let label := pyOrStr cit.sid ""
  let title := pyOrStr cit.title (pyOrStr cit.doc_id "Source")
  let bits :=
    (match cit.year with
     | some v => [pyStr v]
     | none => [])
    ++ (match cit.page with
        | some p => ["p." ++ toString p]
        | none => [])
    ++ (match cit.doc_id with
        | some d => if d = "" then [] else [d]
        | none => [])
  let suffix := if bits.isEmpty then "" else " (" ++ String.intercalate ", " bits ++ ")"
  let line := label ++ " — " ++ title ++ suffix
  match cit.url with
  | some u => if u = "" then line else line ++ " — " ++ u
  | none => line

/-- The per-hit body of the prompt-building loop of `ask` (lines 86-103).  The
three `citation.setdefault` calls are no-ops because `format_citation` always
creates the `url`, `source_url` and `rel_path` keys. -/
def askEntry (settings : RetrievalSettings) (i : Nat) (hit : PreparedHit) : String × Citation :=
  let md := hit.metadata
  let sid := "S" ++ toString (i + 1)
  let snippet := formatSnippet (pyOrStr md.preview (pyOrStr md.text "")) settings.max_snippet_chars
  let title := pyOrStr md.title (pyOrStr md.doc_id "Source")
  let metaSuffix := formatMetadata md
  let line := "[" ++ sid ++ "] " ++ title ++ (if metaSuffix = "" then "" else " " ++ metaSuffix)
    ++ ": " ++ snippet
  (line, { formatCitation hit with sid := some sid })

/-- `QAPipeline.ask` from `app/services/qa.py` (lines 20-134), with its
collaborators supplied by `QAEnv` and the collaborator invocations recorded in
order.  A `float(score)` error raised inside `prepare_hits` propagates. -/
def ask (env : QAEnv) (question : String) (k : Int) (temperature : Rat) (maxTokens : Int)
    (mode : Option String) (filters : Option Filters) (rerankFlag : Option Bool) :
    Except String (AskResult × List CallEvent) :=
  let q := pyStrip question
  if q = "" then
    .ok ({ answer := "", sources := [], usage := .uerror "empty_question" }, [])
  else
    let qv := env.embedQuery q
    let settings := resolveRetrievalSettings filters
    let storeFilters : Option (Option Int × Option Int) :=
      if settings.year_min.isNone && settings.year_max.isNone then none
      else some (settings.year_min, settings.year_max)
    let overfetch := max (k * 5) 50
    let hits :=
      match env.queryFull qv overfetch mode storeFilters with
      | .ok h => h
      | .error _ => env.queryBasic qv overfetch
    let doRerank := rerankFlag.getD true
    let hits :=
      if doRerank then
        match env.rerank q hits with
        | .ok h => h
        | .error _ => hits
      else hits
    let log := [CallEvent.embedCall, CallEvent.queryCall]
      ++ (if doRerank then [CallEvent.rerankCall] else [])
    match prepareHits env.pdf env.store hits settings (some k) with
    | .error e => .error e
    | .ok prepared =>
      if prepared.isEmpty then
        .ok ({ answer := "I couldn’t find relevant passages in the current corpus for that question.",
               sources := [], usage := .uretrieved 0 }, log)
      else
        let entries := prepared.enum.map (fun ih => askEntry settings ih.1 ih.2)
        let lines := entries.map Prod.fst
        let citations := entries.map Prod.snd
        let user := buildUserPrompt q (String.intercalate "\n\n" lines)
        let au := env.chat systemPrompt user temperature maxTokens
        let answer :=
          if citations.isEmpty then au.1
          else
            pyStrip au.1 ++ "\n\nSources:\n"
              ++ String.intercalate "\n" (citations.map (fun c => "- " ++ citationSourceLine c))
        .ok ({ answer := answer, sources := citations, usage := .ullm au.2 },
          log ++ [CallEvent.chatCall])

/-- The chunk id a hit contributes in `prepare_hits` (lines 213-216):
`md.get("id") or hit.get("id")`, `none` when falsy (such a hit is skipped). -/
def hitChunkId (hit : Hit) : Option String :=
  let md := hit.metadata.getD {}
  let c := pyOrStr md.id (pyOrStr hit.id "")
  if c = "" then none else some c

/-- Relation between a raw hit and the score attached to its prepared hit: a
missing raw score yields 0.0, a present raw score must convert via `float`. -/
def scoreSpec (raw : Hit) (ph : PreparedHit) : Prop :=
  match raw.score with
  | none => ph.score = 0
  | some v => pyFloatOf v = some ph.score

/-- A prepared hit together with the raw hit that produced it: the raw hit
contributes the chunk id, and its own raw score determines the attached float
score via `scoreSpec`. -/
def ownHit (raw : Hit) (ph : PreparedHit) : Prop :=
  hitChunkId raw = some ph.id ∧ scoreSpec raw ph

/-- Restriction of a lookup to the records resolving to the given doc id (a
record's doc id defaults to its key's prefix before `_chunk`, line 105). -/
def restrictFind (docId : String) (find : String → Option ChunkMeta) :
    String → Option ChunkMeta :=
  fun k =>
    match find k with
    | some rec => if pyOrStr rec.doc_id (strBeforeChunk k) = docId then some rec else none
    | none => none

/-- The doc id `stitch_preview` resolves for its center record (line 97). -/
def centerDocId (center : ChunkMeta) : String :=
  pyOrStr center.doc_id (strBeforeChunk (pyOrStr center.id ""))

/-- A trivial pdf-links environment: no `docs.jsonl` entries, no files on disk. -/
def emptyPdfEnv : PdfEnv := ⟨fun _ => none, fun _ => none⟩

/-- Sample raw hits used to witness the `prepare_hits` theorems (the scenario
of spec section 8). -/
def sampleHits : List Hit :=
  [ { id := some "d1_chunk0001", score := some (.vflt (1 / 2)),
      metadata := some { doc_id := some "d1", year := some (.vint 2020), text := some "alpha" } },
    { id := some "d1_chunk0002", score := some (.vint 1),
      metadata := some { doc_id := some "d1", year := some (.vint 2020), text := some "beta" } },
    { id := some "d2_chunk0001", score := none,
      metadata := some { doc_id := some "d2", year := some (.vint 2019), text := some "gamma" } } ]

/-- Sample resolved settings: `per_doc = 1`, `year_min = 2020`. -/
def sampleSettings : RetrievalSettings :=
  { contains := [], year_min := some 2020, year_max := none, neighbors := 1, per_doc := 1,
    max_preview_chars := 1800, max_snippet_chars := 500 }

/-- The prepared output of `prepare_hits` on the sample inputs. -/
def sampleOut : List PreparedHit :=
  match prepareHits emptyPdfEnv {} sampleHits sampleSettings (some 6) with
  | .ok out => out
  | .error _ => []

/-- A concrete chunk instance: the single chunk of a one-block document packed
with `max_tokens = 2`, `overlap = 1`. -/
def chunkW : ChunkRec :=
  (chunkRecord (fun _ => false) [] ⟨"w", [[[7]]]⟩ 2 1).headD ⟨"", "", 0, [], 0, 0, 0, []⟩

/-- A raw hit with a missing (`None`) score. -/
def scoreHitW : Hit :=
  { id := some "d_chunk0001", score := none, metadata := some { text := some "alpha" } }

/-- Plain settings with no filters. -/
def plainSettings : RetrievalSettings :=
  { contains := [], year_min := none, year_max := none, neighbors := 0, per_doc := 2,
    max_preview_chars := 1800, max_snippet_chars := 500 }

/-- The prepared hit produced from `scoreHitW`. -/
def scoreOutHead : PreparedHit :=
  (match prepareHits emptyPdfEnv {} [scoreHitW] plainSettings none with
    | .ok out => out
    | .error _ => []).headD ⟨"", 0, {}⟩

/-- A QA environment with inert collaborators, used to witness the `ask` theorem. -/
def sampleQAEnv : QAEnv :=
  { embedQuery := fun _ => [], queryFull := fun _ _ _ _ => .ok [], queryBasic := fun _ _ => [],
    rerank := fun _ hs => .ok hs, chat := fun _ _ _ _ => ("", {}), store := {},
    pdf := emptyPdfEnv }

/-!
Theorems.  Each claim of the specification is settled by one theorem below
(with a counterexample theorem where the claim as stated fails on the code).
-/

/-- C1, counterexample: a record whose `year` field does not parse as an
integer is NOT rejected by `passes_filters` even though the bound
`year_min = 2000` is set — the code skips both bound checks when `int(year)`
fails, so the claim "passes_filters rejects that record" is false here. -/
theorem passesFilters_unparseable_year_cx :
    passesFilters { year := some (.vstr "n/a") } [] (some 2000) none = true := by decide

/-- C1, amended: with no keyword filter, `passes_filters` returns `True` iff
every successfully parsed year lies within the closed `[year_min, year_max]`
range; a record whose year is missing or unparseable is never rejected by the
year filter, whether or not a bound is set. -/
theorem passesFilters_year_semantics (rec : ChunkMeta) (mn mx : Option Int) :
    passesFilters rec [] mn mx = true ↔
      ∀ y : Int, rec.year.bind pyIntOf = some y →
        (∀ m : Int, mn = some m → m ≤ y) ∧ (∀ m : Int, mx = some m → y ≤ m) := by
  cases hy : rec.year.bind pyIntOf with
  | none => cases mn <;> cases mx <;> simp [passesFilters, hy]
  | some y => cases mn <;> cases mx <;> simp [passesFilters, hy]

/-- C4: `neighbor_ids` is a pure function matching its specification: the
documented concrete example; `[chunk_id]` for a non-positive radius;
`[chunk_id]` when the suffix after the first `_chunk` marker does not parse as
an int (including a missing marker, whose suffix is `""`); otherwise the ids
for sequence numbers `n - radius .. n + radius`, 4-digit zero padded. -/
theorem neighbor_ids_spec :
    neighborIds "doc_chunk0005" 2 =
        ["doc_chunk0003", "doc_chunk0004", "doc_chunk0005", "doc_chunk0006", "doc_chunk0007"]
      ∧ (∀ (cid : String) (r : Int), r ≤ 0 → neighborIds cid r = [cid])
      ∧ (∀ (cid : String) (r : Int), 0 < r →
          pyIntStr (pyPartition cid "_chunk").2 = none → neighborIds cid r = [cid])
      ∧ (∀ (cid : String) (r n : Int), 0 < r →
          pyIntStr (pyPartition cid "_chunk").2 = some n →
          neighborIds cid r = (List.range (2 * r + 1).toNat).map
            (fun k => (pyPartition cid "_chunk").1 ++ "_chunk" ++ pyFormat04 (n - r + k))) := by
  refine ⟨by decide, fun cid r h => ?_, fun cid r h hp => ?_, fun cid r n h hp => ?_⟩
  · simp [neighborIds, h]
  · simp [neighborIds, not_le.mpr h, hp]
  · simp [neighborIds, not_le.mpr h, hp]

/-- C4, witness: the radius-zero clause applied at a concrete input. -/
theorem neighbor_ids_spec_witness : neighborIds "x" 0 = ["x"] :=
  neighbor_ids_spec.2.1 "x" 0 (by decide)

/-- C2, counterexample: `chunk_text` performs no parameter validation — called
with `max_tokens = 0` (violating `max_tokens > 0`) it does not fail with a
validation error but returns a chunk list. -/
theorem chunkText_no_error_cx :
    chunkText [[[1], [2]]] 0 0 =
      [{ tokens := [1], page_start := 0, page_end := 0 },
       { tokens := [2], page_start := 0, page_end := 0 }] := by decide

/-- C3, counterexample: with the valid parameters `max_tokens = 2`,
`overlap = 1` the two-block document `[[1,2],[3,4]]` produces a second chunk of
3 tokens — the unchecked overlap tail prepended at a chunk start exceeds the
`max_tokens` bound, so `0 < n_tokens ≤ max_tokens` fails on the code. -/
theorem chunkRecord_exceeds_max_tokens_cx :
    (chunkRecord (fun _ => false) [] ⟨"doc", [[[1, 2], [3, 4]]]⟩ 2 1).map ChunkRec.n_tokens
        = [2, 3]
      ∧ ¬(∀ c ∈ chunkRecord (fun _ => false) [] ⟨"doc", [[[1, 2], [3, 4]]]⟩ 2 1,
            (c.n_tokens : Int) ≤ 2) := by
  refine ⟨by decide, by decide⟩

/-- C10, counterexample: a present but non-convertible score (any object that
`float()` rejects) makes `prepare_hits` raise instead of defaulting the score
to 0.0 — only a missing (`None`) score falls back to 0.0. -/
theorem prepareHits_score_error_cx :
    prepareHits emptyPdfEnv {}
        [{ id := some "d_chunk0001", score := some .vother, metadata := some {} }]
        { contains := [], year_min := none, year_max := none, neighbors := 0, per_doc := 2,
          max_preview_chars := 1800, max_snippet_chars := 500 } none
      = .error "float(score) raised" := by rfl

/-- Restricting the lookup to same-document records does not change the
neighbour loop of `stitch_preview`: a record whose resolved doc id differs is
skipped by the loop exactly as if it were absent. -/
theorem stitchGo_restrict (find : String → Option ChunkMeta) (docId : String) (nt : Bool)
    (mc : Int) (ids : List String) :
    ∀ tl : Int, stitchGo (restrictFind docId find) docId nt mc ids tl
      = stitchGo find docId nt mc ids tl := by
  induction ids with
  | nil => intro tl; rfl
  | cons nid rest ih =>
    intro tl
    simp only [stitchGo, restrictFind]
    cases hf : find nid with
    | none => simpa using ih tl
    | some rec =>
      by_cases hd : pyOrStr rec.doc_id (strBeforeChunk nid) = docId
      · simp only [hd, if_pos, ite_true, if_neg, ne_eq, not_true_eq_false]
        simp [ih]
      · simp only [ne_eq, hd]
        simpa using ih tl

/-- C5: the preview built by `stitch_preview` contains text only from records
whose resolved doc id equals the center record's doc id — replacing the lookup
by its restriction to same-document records yields the same preview string, so
records in the neighbour window with a differing doc id contribute nothing. -/
theorem stitch_preview_cross_doc_guard (center : ChunkMeta)
    (find : String → Option ChunkMeta) (neighbors maxChars : Int) (noTruncate : Bool) :
    stitchPreview center find neighbors maxChars noTruncate
      = stitchPreview center (restrictFind (centerDocId center) find) neighbors maxChars
          noTruncate := by
  unfold stitchPreview centerDocId
  by_cases hc : pyOrStr center.id "" = ""
  · simp [hc]
  · simp only [hc, if_neg, ite_false]
    rw [stitchGo_restrict]

/-- `withIds` sets the resolved doc id. -/
theorem withIds_doc_id (c d : String) (m : ChunkMeta) : (withIds c d m).doc_id = some d := rfl

/-- The year coercion leaves the doc id unchanged. -/
theorem yearCoerce_doc_id (m : ChunkMeta) : (yearCoerce m).doc_id = m.doc_id := by
  unfold yearCoerce
  split
  · split <;> rfl
  · rfl

/-- `enrich_metadata` never modifies the doc id. -/
theorem enrichMetadata_doc_id (env : PdfEnv) (m : ChunkMeta) :
    (enrichMetadata env m).doc_id = m.doc_id := by
  unfold enrichMetadata
  dsimp only
  split
  · rfl
  · repeat' split
    all_goals rfl

/-- What a kept outcome of the per-hit body guarantees: the entry id is the
hit's contributed chunk id, the entry metadata carries the counter's doc id,
the attached score satisfies the score relation, and the per-doc counter was
strictly below the cap. -/
theorem processHit_keep (env : PdfEnv) (store : Store) (settings : RetrievalSettings)
    (lk : Lookup) (cnt : String → Nat) (hit : Hit) (e : PreparedHit) (d : String) (lk2 : Lookup)
    (h : processHit env store settings lk cnt hit = .keep e d lk2) :
    hitChunkId hit = some e.id ∧ e.metadata.doc_id = some d ∧ scoreSpec hit e ∧
      (0 < settings.per_doc → (cnt d : Int) < settings.per_doc) := by
  unfold processHit at h
  by_cases hc : pyOrStr (hit.metadata.getD {}).id (pyOrStr hit.id "") = ""
  · rw [if_pos hc] at h
    exact absurd h (by simp)
  · rw [if_neg hc] at h
    simp only [] at h
    split at h
    · exact absurd h (by simp)
    · split at h
      · exact absurd h (by simp)
      · rename_i hguard
        split at h
        · rename_i hs
          injection h with he hd hlk
          subst he hd
          refine ⟨by simp [hitChunkId, hc], ?_, ?_, ?_⟩
          · simp [enrichMetadata_doc_id, yearCoerce_doc_id, withIds_doc_id]
          · simp [scoreSpec, hs]
          · intro hpos
            simp only [Bool.and_eq_true, decide_eq_true_eq, not_and, not_le] at hguard
            exact hguard (by exact_mod_cast hpos)
        · rename_i v hs
          split at h
          · rename_i q hq
            injection h with he hd hlk
            subst he hd
            refine ⟨by simp [hitChunkId, hc], ?_, ?_, ?_⟩
            · simp [enrichMetadata_doc_id, yearCoerce_doc_id, withIds_doc_id]
            · simp [scoreSpec, hs, hq]
            · intro hpos
              simp only [Bool.and_eq_true, decide_eq_true_eq, not_and, not_le] at hguard
              exact hguard (by exact_mod_cast hpos)
          · exact absurd h (by simp)

/-- The loop of `prepare_hits` emits, in order, a subsequence of the chunk ids
contributed by the raw hits. -/
theorem prepGo_sublist (env : PdfEnv) (store : Store) (settings : RetrievalSettings)
    (limit : Option Int) :
    ∀ (l : List Hit) (lk : Lookup) (cnt : String → Nat) (n : Nat) (out : List PreparedHit),
      prepGo env store settings limit l lk cnt n = .ok out →
      (out.map PreparedHit.id).Sublist (l.filterMap hitChunkId) := by
  intro l
  induction l with
  | nil =>
    intro lk cnt n out h
    simp only [prepGo] at h
    injection h with h
    subst h
    simp
  | cons hit rest ih =>
    intro lk cnt n out h
    simp only [prepGo] at h
    cases hp : processHit env store settings lk cnt hit with
    | fail msg => rw [hp] at h; dsimp only at h; exact absurd h (by simp)
    | skip lk2 =>
      rw [hp] at h; dsimp only at h
      have hs := ih lk2 cnt n out h
      rw [List.filterMap_cons]
      cases hid : hitChunkId hit with
      | none => exact hs
      | some c => exact hs.cons c
    | keep e d lk2 =>
      rw [hp] at h; dsimp only at h
      obtain ⟨hid, -, -, -⟩ := processHit_keep env store settings lk cnt hit e d lk2 hp
      rw [List.filterMap_cons, hid]
      by_cases hstop : stopAt limit (n + 1) = true
      · rw [if_pos hstop] at h
        injection h with h
        subst h
        simp
      · rw [if_neg hstop] at h
        cases hrec : prepGo env store settings limit rest lk2 (bumpCnt cnt d) (n + 1) with
        | error msg => rw [hrec] at h; exact absurd h (by simp [Except.map])
        | ok out2 =>
          rw [hrec] at h
          simp only [Except.map] at h
          injection h with h
          subst h
          exact (ih lk2 (bumpCnt cnt d) (n + 1) out2 hrec).cons₂ e.id

/-- C7: `prepare_hits` is an order-preserving (stable) filter — whenever it
returns, the ids of the surviving hits form a subsequence of the chunk ids of
the raw hits in their original order; nothing is re-sorted. -/
theorem prepare_hits_order_preserving (env : PdfEnv) (store : Store) (hits : List Hit)
    (settings : RetrievalSettings) (limit : Option Int) (out : List PreparedHit)
    (h : prepareHits env store hits settings limit = .ok out) :
    (out.map PreparedHit.id).Sublist (hits.filterMap hitChunkId) := by
  unfold prepareHits at h
  split at h
  · injection h with h
    subst h
    simp
  · exact prepGo_sublist env store settings limit hits store.initLookup (fun _ => 0) 0 out h

/-- C7, witness: the order-preservation theorem applied to the sample inputs. -/
theorem prepare_hits_order_preserving_witness :
    (sampleOut.map PreparedHit.id).Sublist (sampleHits.filterMap hitChunkId) :=
  prepare_hits_order_preserving emptyPdfEnv {} sampleHits sampleSettings (some 6) sampleOut
    (by rfl)

/-- The loop of `prepare_hits` keeps the per-document count invariant: entries
carrying doc id `d` in the remaining output, plus the count already accumulated
for `d`, never exceed a positive `per_doc`. -/
theorem prepGo_count (env : PdfEnv) (store : Store) (settings : RetrievalSettings)
    (limit : Option Int) (hN : 0 < settings.per_doc) (d : String) :
    ∀ (l : List Hit) (lk : Lookup) (cnt : String → Nat) (n : Nat) (out : List PreparedHit),
      prepGo env store settings limit l lk cnt n = .ok out →
      (cnt d : Int) ≤ settings.per_doc →
      (out.countP (fun ph => decide (ph.metadata.doc_id = some d)) : Int) + cnt d
        ≤ settings.per_doc := by
  intro l
  induction l with
  | nil =>
    intro lk cnt n out h hcnt
    simp only [prepGo] at h
    injection h with h
    subst h
    simpa using hcnt
  | cons hit rest ih =>
    intro lk cnt n out h hcnt
    simp only [prepGo] at h
    cases hp : processHit env store settings lk cnt hit with
    | fail msg => rw [hp] at h; dsimp only at h; exact absurd h (by simp)
    | skip lk2 =>
      rw [hp] at h; dsimp only at h
      exact ih lk2 cnt n out h hcnt
    | keep e d2 lk2 =>
      rw [hp] at h; dsimp only at h
      obtain ⟨-, hdoc, -, hlt⟩ := processHit_keep env store settings lk cnt hit e d2 lk2 hp
      have hlt2 := hlt hN
      by_cases hd : d2 = d
      · subst hd
        by_cases hstop : stopAt limit (n + 1) = true
        · rw [if_pos hstop] at h
          injection h with h
          subst h
          simp [List.countP_cons, hdoc]
          omega
        · rw [if_neg hstop] at h
          cases hrec : prepGo env store settings limit rest lk2 (bumpCnt cnt d2) (n + 1) with
          | error msg => rw [hrec] at h; exact absurd h (by simp [Except.map])
          | ok out2 =>
            rw [hrec] at h
            simp only [Except.map] at h
            injection h with h
            subst h
            have hbump : ((bumpCnt cnt d2 d2 : Nat) : Int) ≤ settings.per_doc := by
              simp [bumpCnt]
              omega
            have hrec2 := ih lk2 (bumpCnt cnt d2) (n + 1) out2 hrec hbump
            simp [bumpCnt] at hrec2
            simp [List.countP_cons, hdoc]
            omega
      · have hne : e.metadata.doc_id ≠ some d := by
          rw [hdoc]
          simpa using hd
        have hdd : ¬(d = d2) := fun hx => hd hx.symm
        by_cases hstop : stopAt limit (n + 1) = true
        · rw [if_pos hstop] at h
          injection h with h
          subst h
          simp [List.countP_cons, hne]
          omega
        · rw [if_neg hstop] at h
          cases hrec : prepGo env store settings limit rest lk2 (bumpCnt cnt d2) (n + 1) with
          | error msg => rw [hrec] at h; exact absurd h (by simp [Except.map])
          | ok out2 =>
            rw [hrec] at h
            simp only [Except.map] at h
            injection h with h
            subst h
            have hbump : ((bumpCnt cnt d2 d : Nat) : Int) ≤ settings.per_doc := by
              simp [bumpCnt, hdd]
              exact_mod_cast hcnt
            have hrec2 := ih lk2 (bumpCnt cnt d2) (n + 1) out2 hrec hbump
            simp [bumpCnt, hdd] at hrec2
            simp [List.countP_cons, hne]
            omega

/-- C6: for a positive `per_doc = N`, no doc id occurs more than `N` times
among the hits returned by `prepare_hits`. -/
theorem prepare_hits_per_doc_cap (env : PdfEnv) (store : Store) (hits : List Hit)
    (settings : RetrievalSettings) (limit : Option Int) (out : List PreparedHit) (d : String)
    (hN : 0 < settings.per_doc) (h : prepareHits env store hits settings limit = .ok out) :
    (out.countP (fun ph => decide (ph.metadata.doc_id = some d)) : Int) ≤ settings.per_doc := by
  unfold prepareHits at h
  split at h
  · injection h with h
    subst h
    simpa using le_of_lt hN
  · have := prepGo_count env store settings limit hN d hits store.initLookup (fun _ => 0) 0 out h
      (by simpa using le_of_lt hN)
    simpa using this

/-- C6, witness: the per-doc cap theorem applied to the sample inputs, whose
`per_doc` is 1. -/
theorem prepare_hits_per_doc_cap_witness :
    (sampleOut.countP (fun ph => decide (ph.metadata.doc_id = some "d1")) : Int)
      ≤ sampleSettings.per_doc :=
  prepare_hits_per_doc_cap emptyPdfEnv {} sampleHits sampleSettings (some 6) sampleOut "d1"
    (by decide) (by rfl)

/-- The `prepare_hits` loop pairs its outputs, in order, with the subsequence
of raw hits that produced them: each surviving raw hit contributes its chunk
id to its own output entry, whose score is determined by that raw hit's raw
score. -/
theorem prepGo_scores (env : PdfEnv) (store : Store) (settings : RetrievalSettings)
    (limit : Option Int) :
    ∀ (l : List Hit) (lk : Lookup) (cnt : String → Nat) (n : Nat) (out : List PreparedHit),
      prepGo env store settings limit l lk cnt n = .ok out →
      ∃ raws : List Hit, raws.Sublist l ∧ List.Forall₂ ownHit raws out := by
  intro l
  induction l with
  | nil =>
    intro lk cnt n out h
    simp only [prepGo] at h
    injection h with h
    subst h
    exact ⟨[], List.nil_sublist [], List.Forall₂.nil⟩
  | cons hit rest ih =>
    intro lk cnt n out h
    simp only [prepGo] at h
    cases hp : processHit env store settings lk cnt hit with
    | fail msg => rw [hp] at h; dsimp only at h; exact absurd h (by simp)
    | skip lk2 =>
      rw [hp] at h; dsimp only at h
      obtain ⟨raws, hs, hf⟩ := ih lk2 cnt n out h
      exact ⟨raws, hs.cons hit, hf⟩
    | keep e d lk2 =>
      rw [hp] at h; dsimp only at h
      obtain ⟨hid, -, hscore, -⟩ := processHit_keep env store settings lk cnt hit e d lk2 hp
      by_cases hstop : stopAt limit (n + 1) = true
      · rw [if_pos hstop] at h
        injection h with h
        subst h
        exact ⟨[hit], (List.nil_sublist rest).cons₂ hit,
          List.Forall₂.cons ⟨hid, hscore⟩ List.Forall₂.nil⟩
      · rw [if_neg hstop] at h
        cases hrec : prepGo env store settings limit rest lk2 (bumpCnt cnt d) (n + 1) with
        | error msg => rw [hrec] at h; exact absurd h (by simp [Except.map])
        | ok out2 =>
          rw [hrec] at h
          simp only [Except.map] at h
          injection h with h
          subst h
          obtain ⟨raws, hs, hf⟩ := ih lk2 (bumpCnt cnt d) (n + 1) out2 hrec
          exact ⟨hit :: raws, hs.cons₂ hit, List.Forall₂.cons ⟨hid, hscore⟩ hf⟩

/-- C10, amended: whenever `prepare_hits` returns, its output hits are paired,
in order, with the subsequence of raw hits that produced them — each pair
shares the chunk id, and each output hit's float score comes from its own raw
hit: 0.0 exactly when that raw score was missing (`None`), and the `float()`
conversion of that raw score otherwise; a present score that `float()` cannot
convert makes the call fail instead (see the counterexample). -/
theorem prepare_hits_score_attachment (env : PdfEnv) (store : Store) (hits : List Hit)
    (settings : RetrievalSettings) (limit : Option Int) (out : List PreparedHit)
    (h : prepareHits env store hits settings limit = .ok out) :
    ∃ raws : List Hit, raws.Sublist hits ∧ List.Forall₂ ownHit raws out := by
  unfold prepareHits at h
  split at h
  · injection h with h
    subst h
    exact ⟨[], List.nil_sublist hits, List.Forall₂.nil⟩
  · exact prepGo_scores env store settings limit hits store.initLookup (fun _ => 0) 0 out h

/-- C10, witness: the pairing theorem applied to a one-hit input with a missing
score, instantiated to the unique surviving pair. -/
theorem prepare_hits_score_attachment_witness : ownHit scoreHitW scoreOutHead := by
  obtain ⟨raws, hs, hf⟩ :=
    prepare_hits_score_attachment emptyPdfEnv {} [scoreHitW] plainSettings none [scoreOutHead]
      (by rfl)
  cases hf with
  | cons hrel htail =>
    cases htail
    rename_i raw
    have ham : raw ∈ [scoreHitW] := hs.subset (List.mem_cons_self raw [])
    rw [List.mem_singleton] at ham
    subst ham
    exact hrel

/-- C9: for a question that is empty or whitespace-only after trimming, `ask`
returns the answer `""`, the empty source list and the usage error marker
`{"error": "empty_question"}`, and performs no collaborator call at all — the
embedder, vector store, reranker and chat model are never invoked (the call
log is empty). -/
theorem ask_empty_question (env : QAEnv) (question : String) (k : Int) (temperature : Rat)
    (maxTokens : Int) (mode : Option String) (filters : Option Filters)
    (rerankFlag : Option Bool) (h : pyStrip question = "") :
    ask env question k temperature maxTokens mode filters rerankFlag
      = .ok ({ answer := "", sources := [], usage := .uerror "empty_question" }, []) := by
  unfold ask
  rw [h]
  simp

/-- C9, witness: the empty-question theorem applied to a whitespace question in
the sample environment. -/
theorem ask_empty_question_witness :
    ask sampleQAEnv " \t " 6 (1 / 5) 600 none none none
      = .ok ({ answer := "", sources := [], usage := .uerror "empty_question" }, []) :=
  ask_empty_question sampleQAEnv " \t " 6 (1 / 5) 600 none none none (by rfl)

/-- The second component of an `enumFrom` element is an element of the list. -/
theorem snd_mem_of_mem_enumFrom {α : Type} {l : List α} :
    ∀ (n : Nat) (p : Nat × α), p ∈ l.enumFrom n → p.2 ∈ l := by
  induction l with
  | nil => intro n p h; simp [List.enumFrom] at h
  | cons a l ih =>
    intro n p h
    simp only [List.enumFrom] at h
    rcases List.mem_cons.mp h with h1 | h2
    · rw [h1]
      exact List.mem_cons_self a l
    · exact List.mem_cons_of_mem a (ih (n + 1) p h2)

/-- The second component of an `enum` element is an element of the list. -/
theorem snd_mem_of_mem_enum {α : Type} {l : List α} {p : Nat × α} (h : p ∈ l.enum) : p.2 ∈ l :=
  snd_mem_of_mem_enumFrom 0 p h

/-- A page-indexed block comes from one of the pages. -/
theorem mem_indexedBlocks {pages : List (List (List Nat))} {pb : Nat × List Nat}
    (h : pb ∈ indexedBlocks pages) : ∃ page ∈ pages, pb.2 ∈ page := by
  simp only [indexedBlocks, List.mem_flatMap] at h
  obtain ⟨a, ha, hpb⟩ := h
  rw [List.mem_map] at hpb
  obtain ⟨b, hbmem, hfst⟩ := hpb
  refine ⟨a.2, snd_mem_of_mem_enum ha, ?_⟩
  have : b = pb.2 := congrArg Prod.snd hfst
  rwa [this] at hbmem

/-- A step of the degenerate packing (`max_tokens ≤ 0`, `overlap = 0`) from an
empty running chunk: the non-fitting block becomes the new running chunk. -/
theorem packStep_zero_empty (mt : Int) (i : Nat) (t : List Nat) (out : List TChunk)
    (fp : Nat) (ps : Option Nat) (lc : Option (List Nat))
    (hnot : ¬((t.length : Int) ≤ mt)) :
    packStep mt 0 ⟨out, [], fp, ps, lc⟩ (i, t) = ⟨out, t, i, some i, lc⟩ := by
  unfold packStep
  dsimp only
  simp only [List.isEmpty_nil, ite_true, List.length_nil, Nat.cast_zero, zero_add]
  rw [if_neg hnot]
  cases lc <;> simp

/-- A step of the degenerate packing from a non-empty running chunk: the chunk
is flushed and the block becomes the new running chunk. -/
theorem packStep_zero_flush (mt : Int) (i : Nat) (t : List Nat) (out : List TChunk)
    (c : List Nat) (fp p : Nat) (lc : Option (List Nat)) (hc : c ≠ [])
    (hnot : ¬((c.length : Int) + (t.length : Int) ≤ mt)) :
    packStep mt 0 ⟨out, c, fp, some p, lc⟩ (i, t)
      = ⟨out ++ [⟨c, fp, p⟩], t, i, some i, some c⟩ := by
  have hfe : c.isEmpty = false := by simpa using hc
  unfold packStep
  dsimp only
  simp only [hfe, Bool.false_eq_true, ite_false]
  rw [if_neg hnot]
  simp [hfe]

/-- With `max_tokens ≤ 0` and `overlap = 0`, every non-empty block flushes the
previous block and starts its own chunk: packing degenerates to one chunk per
block, each spanning only its page. -/
theorem packZeroAux (mt : Int) (hmt : mt ≤ 0) :
    ∀ (l : List (Nat × List Nat)), (∀ pb ∈ l, pb.2 ≠ ([] : List Nat)) →
    ∀ (out : List TChunk) (c : List Nat) (fp : Nat) (ps : Option Nat) (lc : Option (List Nat)),
      c = [] ∨ ps.isSome →
      packFinish (l.foldl (packStep mt 0) ⟨out, c, fp, ps, lc⟩)
        = (if c.isEmpty then out else out ++ [⟨c, fp, ps.getD fp⟩])
            ++ l.map (fun pb => TChunk.mk pb.2 pb.1 pb.1) := by
  intro l
  induction l with
  | nil =>
    intro hb out c fp ps lc hcp
    simp [packFinish]
  | cons pb rest ih =>
    intro hb out c fp ps lc hcp
    obtain ⟨i, t⟩ := pb
    have ht : t ≠ [] := hb (i, t) (List.mem_cons_self _ _)
    have hte : t.isEmpty = false := by simpa using ht
    have htpos : 0 < t.length := List.length_pos.mpr ht
    have hbr : ∀ pb ∈ rest, pb.2 ≠ ([] : List Nat) :=
      fun pb hp => hb pb (List.mem_cons_of_mem _ hp)
    rw [List.foldl_cons]
    by_cases hc : c = []
    · subst hc
      rw [packStep_zero_empty mt i t out fp ps lc (by omega)]
      rw [ih hbr out t i (some i) lc (Or.inr rfl)]
      simp [hte]
    · have hfe : c.isEmpty = false := by simpa using hc
      obtain ⟨p, hps⟩ : ∃ p, ps = some p := by
        cases hcp with
        | inl h => exact absurd h hc
        | inr h => exact Option.isSome_iff_exists.mp h
      subst hps
      rw [packStep_zero_flush mt i t out c fp p lc hc (by omega)]
      rw [ih hbr (out ++ [TChunk.mk c fp p]) t i (some i) (some c) (Or.inr rfl)]
      simp [hte, hfe]

/-- C2, amended: `chunk_text` does not validate its parameters; a call
violating the preconditions still returns a chunk list.  In particular with
`max_tokens ≤ 0` and `overlap = 0` it returns one chunk per non-empty block. -/
theorem chunkText_no_validation (pages : List (List (List Nat))) (mt : Int) (hmt : mt ≤ 0)
    (hb : ∀ blocks ∈ pages, ∀ b ∈ blocks, b ≠ ([] : List Nat)) :
    chunkText pages mt 0 = (indexedBlocks pages).map (fun pb => TChunk.mk pb.2 pb.1 pb.1) := by
  unfold chunkText packBlocksWithOverlap
  have hb2 : ∀ pb ∈ indexedBlocks pages, pb.2 ≠ ([] : List Nat) := by
    intro pb hpb
    obtain ⟨page, hpage, hbm⟩ := mem_indexedBlocks hpb
    exact hb page hpage pb.2 hbm
  have := packZeroAux mt hmt (indexedBlocks pages) hb2 [] [] 0 none none (Or.inl rfl)
  simpa using this

/-- C2, witness: the degenerate packing applied at a concrete invalid call. -/
theorem chunkText_no_validation_witness : chunkText [[[5]]] 0 0 = [⟨[5], 0, 0⟩] :=
  (chunkText_no_validation [[[5]]] 0 (by decide) (by decide)).trans (by rfl)

/-- The slice `last[-k:]` with `0 < k < len(last)` keeps exactly `k` elements. -/
theorem length_overlap_tail {α : Type} (xs : List α) (k : Int) (h0 : 0 < k)
    (hlt : k < (xs.length : Int)) : ((pySliceFromList xs (-k)).length : Int) ≤ k := by
  unfold pySliceFromList
  rw [if_pos (by omega)]
  rw [List.length_drop]
  omega

/-- The overlap tail of the previous chunk has at most `overlap` tokens. -/
theorem overlapTail_length (ov : Int) (last : List Nat) (hov : 0 < ov) :
    ((overlapTail ov last).length : Int) ≤ ov := by
  unfold overlapTail
  split
  · rename_i hlen
    exact length_overlap_tail last ov hov (by omega)
  · rename_i hlen
    omega

/-- One packing step preserves the invariant: all flushed chunks are non-empty
and within `max_tokens`, and the running chunk stays within `max_tokens`,
provided every block fits in `max_tokens - overlap` tokens. -/
theorem packStep_inv (mt ov : Int) (ho : 0 ≤ ov) (pb : Nat × List Nat)
    (ht : ((pb.2.length : Nat) : Int) ≤ mt - ov) (s : PackState)
    (hout : ∀ ch ∈ s.out, 0 < ch.tokens.length ∧ (ch.tokens.length : Int) ≤ mt)
    (hcur : (s.cur.length : Int) ≤ mt) :
    (∀ ch ∈ (packStep mt ov s pb).out,
        0 < ch.tokens.length ∧ (ch.tokens.length : Int) ≤ mt)
      ∧ ((packStep mt ov s pb).cur.length : Int) ≤ mt := by
  obtain ⟨i, t⟩ := pb
  obtain ⟨out, c, fp, ps, lc⟩ := s
  dsimp only at hout hcur ht ⊢
  by_cases hce : c.isEmpty
  · have hc0 : c = [] := by simpa using hce
    subst hc0
    unfold packStep
    dsimp only
    simp only [List.isEmpty_nil, ite_true, List.length_nil, Nat.cast_zero, zero_add]
    split
    · rename_i hle
      refine ⟨hout, ?_⟩
      simpa using hle
    · refine ⟨hout, ?_⟩
      cases lc with
      | none =>
        dsimp only
        omega
      | some last =>
        dsimp only
        split
        · rename_i hcond
          simp only [Bool.and_eq_true, decide_eq_true_eq] at hcond
          have hov : 0 < ov := by
            rcases hcond with ⟨h1, -⟩
            omega
          have h3 := overlapTail_length ov last hov
          rw [List.length_append]
          push_cast
          omega
        · omega
  · have hc0 : c ≠ [] := by simpa using hce
    have hfe : c.isEmpty = false := by simpa using hc0
    unfold packStep
    dsimp only
    simp only [hfe, Bool.false_eq_true, ite_false]
    split
    · rename_i hle
      refine ⟨hout, ?_⟩
      rw [List.length_append]
      push_cast at hle ⊢
      omega
    · constructor
      · intro ch hch
        rcases List.mem_append.mp hch with h1 | h2
        · exact hout ch h1
        · rw [List.mem_singleton] at h2
          subst h2
          exact ⟨List.length_pos.mpr hc0, hcur⟩
      · dsimp only
        simp only [hfe, Bool.not_false, Bool.and_true]
        split
        · rename_i hcond
          simp only [decide_eq_true_eq] at hcond
          have hov : 0 < ov := by omega
          have h3 := overlapTail_length ov c hov
          rw [List.length_append]
          push_cast
          omega
        · omega

/-- The packing loop starting from an invariant-satisfying state yields only
chunks that are non-empty and within `max_tokens`. -/
theorem packBoundAux (mt ov : Int) (ho : 0 ≤ ov) :
    ∀ (l : List (Nat × List Nat)), (∀ pb ∈ l, ((pb.2.length : Nat) : Int) ≤ mt - ov) →
    ∀ (s : PackState),
      (∀ ch ∈ s.out, 0 < ch.tokens.length ∧ (ch.tokens.length : Int) ≤ mt) →
      (s.cur.length : Int) ≤ mt →
      ∀ ch ∈ packFinish (l.foldl (packStep mt ov) s),
        0 < ch.tokens.length ∧ (ch.tokens.length : Int) ≤ mt := by
  intro l
  induction l with
  | nil =>
    intro hb s hout hcur ch hch
    unfold packFinish at hch
    split at hch
    · exact hout ch hch
    · rename_i hne
      rcases List.mem_append.mp hch with h1 | h2
      · exact hout ch h1
      · rw [List.mem_singleton] at h2
        subst h2
        refine ⟨List.length_pos.mpr (by simpa using hne), hcur⟩
  | cons pb rest ih =>
    intro hb s hout hcur
    rw [List.foldl_cons]
    have hstep := packStep_inv mt ov ho pb (hb pb (List.mem_cons_self _ _)) s hout hcur
    exact ih (fun q hq => hb q (List.mem_cons_of_mem _ hq)) (packStep mt ov s pb) hstep.1 hstep.2

/-- One packing step only flushes non-empty chunks: the flush of lines 100-105
happens in the `else` branch of `if not cur_tokens`, so the flushed chunk's
token list is the non-empty `cur_tokens`, regardless of the parameters. -/
theorem packStep_out_pos (mt ov : Int) (s : PackState) (pb : Nat × List Nat)
    (hout : ∀ ch ∈ s.out, 0 < ch.tokens.length) :
    ∀ ch ∈ (packStep mt ov s pb).out, 0 < ch.tokens.length := by
  obtain ⟨i, t⟩ := pb
  obtain ⟨out, c, fp, ps, lc⟩ := s
  dsimp only at hout
  by_cases hce : c.isEmpty
  · have hc0 : c = [] := by simpa using hce
    subst hc0
    unfold packStep
    dsimp only
    simp only [List.isEmpty_nil, ite_true]
    split
    · exact hout
    · exact hout
  · have hc0 : c ≠ [] := by simpa using hce
    have hfe : c.isEmpty = false := by simpa using hc0
    unfold packStep
    dsimp only
    simp only [hfe, Bool.false_eq_true, ite_false]
    split
    · exact hout
    · intro ch hch
      rcases List.mem_append.mp hch with h1 | h2
      · exact hout ch h1
      · rw [List.mem_singleton] at h2
        subst h2
        exact List.length_pos.mpr hc0

/-- The packing loop emits only non-empty chunks, for arbitrary parameters:
every flush is guarded by a non-empty `cur_tokens`, including the final one of
lines 116-117. -/
theorem packPosAux (mt ov : Int) :
    ∀ (l : List (Nat × List Nat)) (s : PackState),
      (∀ ch ∈ s.out, 0 < ch.tokens.length) →
      ∀ ch ∈ packFinish (l.foldl (packStep mt ov) s), 0 < ch.tokens.length := by
  intro l
  induction l with
  | nil =>
    intro s hout ch hch
    unfold packFinish at hch
    split at hch
    · exact hout ch hch
    · rename_i hne
      rcases List.mem_append.mp hch with h1 | h2
      · exact hout ch h1
      · rw [List.mem_singleton] at h2
        subst h2
        exact List.length_pos.mpr (by simpa using hne)
  | cons pb rest ih =>
    intro s hout
    rw [List.foldl_cons]
    exact ih (packStep mt ov s pb) (packStep_out_pos mt ov s pb hout)

/-- C3, amended: every chunk produced by `chunk_record` has `0 < n_tokens`
unconditionally (a chunk is flushed only when `cur_tokens` is non-empty, lines
100-105 and 116-117); additionally, `n_tokens ≤ max_tokens` holds whenever
every block fits within `max_tokens - overlap` tokens.  Without that proviso
the unchecked overlap tail (or an oversized single block) can push a chunk
above `max_tokens`, as the counterexample shows. -/
theorem chunkRecord_token_bounds (hT : List Nat → Bool) (op : List Nat) (rec : DocRecord)
    (mt ov : Int) (hm : 0 < mt) (ho : 0 ≤ ov) (hlt : ov < mt) :
    (∀ c ∈ chunkRecord hT op rec mt ov, 0 < c.n_tokens)
      ∧ ((∀ page ∈ rec.text, ∀ b ∈ page, ((b.length : Nat) : Int) ≤ mt - ov) →
          ∀ c ∈ chunkRecord hT op rec mt ov, (c.n_tokens : Int) ≤ mt) := by
  constructor
  · intro c hc
    unfold chunkRecord at hc
    rw [List.mem_map] at hc
    obtain ⟨ic, hic, rfl⟩ := hc
    have h2 : ic.2 ∈ chunkText rec.text mt ov := snd_mem_of_mem_enum hic
    exact packPosAux mt ov (indexedBlocks rec.text) ⟨[], [], 0, none, none⟩
      (by intro ch hch; simp at hch) ic.2 h2
  · intro hb c hc
    unfold chunkRecord at hc
    rw [List.mem_map] at hc
    obtain ⟨ic, hic, rfl⟩ := hc
    have h2 : ic.2 ∈ chunkText rec.text mt ov := snd_mem_of_mem_enum hic
    have hb2 : ∀ pb ∈ indexedBlocks rec.text, ((pb.2.length : Nat) : Int) ≤ mt - ov := by
      intro pb hpb
      obtain ⟨page, hpage, hbm⟩ := mem_indexedBlocks hpb
      exact hb page hpage pb.2 hbm
    exact (packBoundAux mt ov ho (indexedBlocks rec.text) hb2 ⟨[], [], 0, none, none⟩
      (by intro ch hch; simp at hch) (by simp; omega) ic.2 h2).2

/-- C3, witness: both conjuncts of the token-bound theorem applied at concrete
valid parameters to the concrete chunk `chunkW`. -/
theorem chunkRecord_token_bounds_witness : 0 < chunkW.n_tokens ∧ (chunkW.n_tokens : Int) ≤ 2 :=
  ⟨(chunkRecord_token_bounds (fun _ => false) [] ⟨"w", [[[7]]]⟩ 2 1 (by decide) (by decide)
      (by decide)).1 chunkW
      (by rw [show chunkRecord (fun _ => false) [] ⟨"w", [[[7]]]⟩ 2 1 = [chunkW] from rfl]
          exact List.mem_singleton_self chunkW),
    (chunkRecord_token_bounds (fun _ => false) [] ⟨"w", [[[7]]]⟩ 2 1 (by decide) (by decide)
      (by decide)).2 (by decide) chunkW
      (by rw [show chunkRecord (fun _ => false) [] ⟨"w", [[[7]]]⟩ 2 1 = [chunkW] from rfl]
          exact List.mem_singleton_self chunkW)⟩

/-- `Char.ofNat` of a valid code point round-trips through `toNat`. -/
theorem char_toNat_ofNat {n : Nat} (h : n.isValidChar) : (Char.ofNat n).toNat = n := by
  rw [Char.ofNat, dif_pos h]
  rfl

/-- The code point of `Char.toLower`: shifted by 32 on `A`-`Z`, unchanged
otherwise. -/
theorem toLower_toNat (c : Char) :
    (Char.toLower c).toNat = if c.toNat ≥ 65 ∧ c.toNat ≤ 90 then c.toNat + 32 else c.toNat := by
  unfold Char.toLower
  dsimp only
  split
  · rename_i h
    exact char_toNat_ofNat (Or.inl (by omega))
  · rfl

/-- `Char.toLower` fixes characters outside `A`-`Z`. -/
theorem toLower_eq_self {d : Char} (h : ¬(d.toNat ≥ 65 ∧ d.toNat ≤ 90)) :
    Char.toLower d = d := by
  unfold Char.toLower
  dsimp only
  rw [if_neg h]

/-- `Char.toLower` is idempotent. -/
theorem toLower_idem (c : Char) : Char.toLower (Char.toLower c) = Char.toLower c := by
  apply toLower_eq_self
  rw [toLower_toNat c]
  by_cases h : c.toNat ≥ 65 ∧ c.toNat ≤ 90
  · rw [if_pos h]
    omega
  · rw [if_neg h]
    exact h

/-- Lowercasing does not change whether a character is Python whitespace. -/
theorem pyIsSpace_toLower (c : Char) : pyIsSpace (Char.toLower c) = pyIsSpace c := by
  unfold pyIsSpace
  rw [toLower_toNat c]
  by_cases h : c.toNat ≥ 65 ∧ c.toNat ≤ 90
  · rw [if_pos h]
    have hL : (decide (c.toNat + 32 = 32) || decide (c.toNat + 32 = 9)
        || decide (c.toNat + 32 = 10) || decide (c.toNat + 32 = 13)
        || decide (c.toNat + 32 = 11) || decide (c.toNat + 32 = 12)) = false := by
      simp only [Bool.or_eq_false_iff, decide_eq_false_iff_not]
      omega
    have hR : (decide (c.toNat = 32) || decide (c.toNat = 9) || decide (c.toNat = 10)
        || decide (c.toNat = 13) || decide (c.toNat = 11) || decide (c.toNat = 12)) = false := by
      simp only [Bool.or_eq_false_iff, decide_eq_false_iff_not]
      omega
    rw [hL, hR]
  · rw [if_neg h]

/-- `dropWhile` is idempotent. -/
theorem dropWhile_idem {α : Type} (p : α → Bool) (l : List α) :
    (l.dropWhile p).dropWhile p = l.dropWhile p := by
  induction l with
  | nil => rfl
  | cons a l ih =>
    rw [List.dropWhile_cons]
    split
    · exact ih
    · rename_i h
      rw [List.dropWhile_cons]
      simp [h]

/-- The head surviving `dropWhile` fails the predicate. -/
theorem dropWhile_head_false {α : Type} (p : α → Bool) :
    ∀ (l : List α) (a : α) (rest : List α), l.dropWhile p = a :: rest → p a = false := by
  intro l
  induction l with
  | nil => intro a rest h; simp at h
  | cons b l ih =>
    intro a rest h
    rw [List.dropWhile_cons] at h
    split at h
    · exact ih a rest h
    · rename_i hb
      injection h with h1 h2
      subst h1
      simpa using hb

/-- Stripping is idempotent on character lists. -/
theorem pyStripList_idem (l : List Char) : pyStripList (pyStripList l) = pyStripList l := by
  unfold pyStripList
  set A := l.dropWhile pyIsSpace with hA
  set B := A.reverse.dropWhile pyIsSpace with hB
  have h1 : B.reverse.dropWhile pyIsSpace = B.reverse := by
    cases hBr : B.reverse with
    | nil => rfl
    | cons a rest =>
      obtain ⟨z, hz⟩ := List.dropWhile_suffix (l := A.reverse) pyIsSpace
      rw [← hB] at hz
      have hAeq : A = a :: (rest ++ z.reverse) := by
        calc A = A.reverse.reverse := (List.reverse_reverse A).symm
        _ = (z ++ B).reverse := by rw [hz]
        _ = B.reverse ++ z.reverse := by rw [List.reverse_append]
        _ = a :: (rest ++ z.reverse) := by rw [hBr]; simp
      have hpa : pyIsSpace a = false :=
        dropWhile_head_false pyIsSpace l a (rest ++ z.reverse) (by rw [← hA]; exact hAeq)
      rw [List.dropWhile_cons]
      simp [hpa]
  rw [h1, List.reverse_reverse, hB, dropWhile_idem]

/-- Stripping commutes with characterwise lowercasing. -/
theorem pyStripList_map_toLower (l : List Char) :
    pyStripList (l.map Char.toLower) = (pyStripList l).map Char.toLower := by
  have hpf : (pyIsSpace ∘ Char.toLower) = pyIsSpace := funext pyIsSpace_toLower
  unfold pyStripList
  rw [List.dropWhile_map, hpf, ← List.map_reverse, List.dropWhile_map, hpf, ← List.map_reverse]

/-- The character list of `String.mk` is the list itself. -/
theorem toList_mk (l : List Char) : (String.mk l).toList = l := rfl

/-- `pyStrip` is idempotent. -/
theorem pyStrip_idem (s : String) : pyStrip (pyStrip s) = pyStrip s := by
  unfold pyStrip
  rw [toList_mk, pyStripList_idem]

/-- `pyStrip` commutes with `pyLower`. -/
theorem pyStrip_pyLower_comm (s : String) : pyStrip (pyLower s) = pyLower (pyStrip s) := by
  unfold pyStrip pyLower
  rw [toList_mk, toList_mk, pyStripList_map_toLower]
  rfl

/-- `pyLower` is idempotent. -/
theorem pyLower_idem (s : String) : pyLower (pyLower s) = pyLower s := by
  unfold pyLower
  rw [toList_mk, List.map_map, show (Char.toLower ∘ Char.toLower) = Char.toLower from
    funext toLower_idem]

/-- `pyLower` preserves emptiness. -/
theorem pyLower_eq_empty_iff (s : String) : pyLower s = "" ↔ s = "" := by
  unfold pyLower
  rw [String.ext_iff, String.ext_iff]
  constructor
  · intro h
    have : s.data.map Char.toLower = [] := h
    simpa using List.map_eq_nil_iff.mp this
  · intro h
    simp [show s.data = [] from h]

/-- Every keyword produced by the `contains` normalisation is already stripped,
non-empty, and lowercased. -/
theorem rawContains_shape (v : Option PyVal) :
    ∀ t ∈ rawContains v, pyStrip t = t ∧ t ≠ "" ∧ pyLower t = t := by
  have hshape : ∀ u : String, pyStrip u ≠ "" →
      pyStrip (pyLower (pyStrip u)) = pyLower (pyStrip u)
        ∧ pyLower (pyStrip u) ≠ "" ∧ pyLower (pyLower (pyStrip u)) = pyLower (pyStrip u) := by
    intro u hu
    refine ⟨?_, ?_, pyLower_idem _⟩
    · rw [pyStrip_pyLower_comm, pyStrip_idem]
    · intro hcon
      exact hu ((pyLower_eq_empty_iff _).mp hcon)
  intro t ht
  match v with
  | none => simp [rawContains] at ht
  | some (.vint n) => simp [rawContains] at ht
  | some (.vflt q) => simp [rawContains] at ht
  | some .vother => simp [rawContains] at ht
  | some (.vstr s) =>
    unfold rawContains at ht
    rw [List.mem_filterMap] at ht
    obtain ⟨u, -, hu⟩ := ht
    dsimp only at hu
    split at hu
    · exact absurd hu (by simp)
    · rename_i hne
      injection hu with hu
      subst hu
      exact hshape u hne
  | some (.vlist xs) =>
    unfold rawContains at ht
    rw [List.mem_filterMap] at ht
    obtain ⟨u, -, hu⟩ := ht
    dsimp only at hu
    split at hu
    · exact absurd hu (by simp)
    · rename_i hne
      injection hu with hu
      subst hu
      exact hshape (pyStr u) hne

/-- Deduplication only keeps elements of the input list. -/
theorem dedupFirst_subset : ∀ (l seen : List String) (x : String),
    x ∈ dedupFirst l seen → x ∈ l := by
  intro l
  induction l with
  | nil => intro seen x h; simp [dedupFirst] at h
  | cons a l ih =>
    intro seen x h
    unfold dedupFirst at h
    split at h
    · exact List.mem_cons_of_mem a (ih seen x h)
    · rcases List.mem_cons.mp h with h1 | h2
      · exact h1 ▸ List.mem_cons_self a l
      · exact List.mem_cons_of_mem a (ih (a :: seen) x h2)

/-- Deduplication never emits an element of the seen set. -/
theorem dedupFirst_not_seen : ∀ (l seen : List String) (x : String),
    x ∈ dedupFirst l seen → x ∉ seen := by
  intro l
  induction l with
  | nil => intro seen x h; simp [dedupFirst] at h
  | cons a l ih =>
    intro seen x h
    unfold dedupFirst at h
    split at h
    · exact ih seen x h
    · rename_i ha
      rcases List.mem_cons.mp h with h1 | h2
      · subst h1; exact ha
      · intro hx
        exact ih (a :: seen) x h2 (List.mem_cons_of_mem a hx)

/-- The deduplicated list has no duplicates. -/
theorem dedupFirst_nodup : ∀ (l seen : List String), (dedupFirst l seen).Nodup := by
  intro l
  induction l with
  | nil => intro seen; simp [dedupFirst]
  | cons a l ih =>
    intro seen
    unfold dedupFirst
    split
    · exact ih seen
    · refine List.nodup_cons.mpr ⟨?_, ih (a :: seen)⟩
      intro ha
      exact dedupFirst_not_seen l (a :: seen) a ha (List.mem_cons_self a seen)

/-- Deduplication is the identity on duplicate-free lists disjoint from the
seen set. -/
theorem dedupFirst_of_nodup : ∀ (l seen : List String), l.Nodup →
    (∀ x ∈ l, x ∉ seen) → dedupFirst l seen = l := by
  intro l
  induction l with
  | nil => intro seen _ _; rfl
  | cons a l ih =>
    intro seen hnd hdis
    unfold dedupFirst
    rw [if_neg (hdis a (List.mem_cons_self a l))]
    congr 1
    apply ih (a :: seen) (List.nodup_cons.mp hnd).2
    intro x hx hmem
    rcases List.mem_cons.mp hmem with h1 | h2
    · exact (List.nodup_cons.mp hnd).1 (h1 ▸ hx)
    · exact hdis x (List.mem_cons_of_mem a hx) h2

/-- On a list of already-normalised keywords, the second `contains` pass is the
identity. -/
theorem filterMap_contains_id (l : List String)
    (h : ∀ t ∈ l, pyStrip t = t ∧ t ≠ "" ∧ pyLower t = t) :
    (l.filterMap (fun t =>
      if pyStrip t = "" then none else some (pyLower (pyStrip t)))) = l := by
  induction l with
  | nil => rfl
  | cons a l ih =>
    obtain ⟨h1, h2, h3⟩ := h a (List.mem_cons_self a l)
    simp only [List.filterMap_cons, h1, if_neg h2, h3]
    rw [ih (fun t ht => h t (List.mem_cons_of_mem a ht))]

/-- `_to_int` with a default and a minimum returns the default or a clamped
value above the minimum. -/
theorem toIntPy_min_or_default (v : Option PyVal) (d m : Int) :
    toIntPy v (some d) (some m) = some d
      ∨ ∃ r, toIntPy v (some d) (some m) = some r ∧ m ≤ r := by
  unfold toIntPy
  split
  · exact Or.inl rfl
  · exact Or.inl rfl
  · split
    · rename_i n hn
      refine Or.inr ⟨_, rfl, ?_⟩
      split <;> omega
    · exact Or.inl rfl

/-- An optional int that is the default or above the minimum stays above the
minimum through `getD`. -/
theorem getD_min (o : Option Int) (d m : Int) (hd : m ≤ d)
    (h : o = some d ∨ ∃ r, o = some r ∧ m ≤ r) : m ≤ o.getD d := by
  rcases h with h | ⟨r, h, hr⟩ <;> subst h <;> simpa

/-- An optional int that is the default or above a positive minimum stays above
the minimum through the falsy-default combinator. -/
theorem pyOrIntD_min (o : Option Int) (d m : Int) (hd : m ≤ d)
    (h : o = some d ∨ ∃ r, o = some r ∧ m ≤ r) : m ≤ pyOrIntD o d := by
  rcases h with h | ⟨r, h, hr⟩ <;> subst h <;> dsimp only [pyOrIntD] <;> split <;> omega

/-- The resolved `neighbors` is non-negative. -/
theorem resolve_neighbors_nonneg (x : Option Filters) :
    0 ≤ (resolveRetrievalSettings x).neighbors := by
  have heq : (resolveRetrievalSettings x).neighbors
      = (toIntPy ((x.getD {}).neighbors) (some 1) (some 0)).getD 1 := rfl
  rw [heq]
  exact getD_min _ 1 0 (by omega) (toIntPy_min_or_default _ 1 0)

/-- The resolved `per_doc` is at least 1. -/
theorem resolve_per_doc_pos (x : Option Filters) :
    1 ≤ (resolveRetrievalSettings x).per_doc := by
  have heq : (resolveRetrievalSettings x).per_doc
      = (toIntPy ((x.getD {}).per_doc) (some 2) (some 1)).getD 2 := rfl
  rw [heq]
  exact getD_min _ 2 1 (by omega) (toIntPy_min_or_default _ 2 1)

/-- The resolved `max_preview_chars` is at least 100. -/
theorem resolve_mpc_min (x : Option Filters) :
    100 ≤ (resolveRetrievalSettings x).max_preview_chars := by
  have heq : (resolveRetrievalSettings x).max_preview_chars
      = pyOrIntD (toIntPy ((x.getD {}).max_preview_chars) (some 1800) (some 100)) 1800 := rfl
  rw [heq]
  exact pyOrIntD_min _ 1800 100 (by omega) (toIntPy_min_or_default _ 1800 100)

/-- The resolved `max_snippet_chars` is at least 120. -/
theorem resolve_msc_min (x : Option Filters) :
    120 ≤ (resolveRetrievalSettings x).max_snippet_chars := by
  have heq : (resolveRetrievalSettings x).max_snippet_chars
      = pyOrIntD (toIntPy ((x.getD {}).max_snippet_chars) (some 500) (some 120)) 500 := rfl
  rw [heq]
  exact pyOrIntD_min _ 500 120 (by omega) (toIntPy_min_or_default _ 500 120)

/-- Re-resolving the field dictionary of a settings record satisfying the
resolver's invariants is the identity. -/
theorem resolve_of_settings (s : RetrievalSettings)
    (hshape : ∀ t ∈ s.contains, pyStrip t = t ∧ t ≠ "" ∧ pyLower t = t)
    (hnodup : s.contains.Nodup) (hnb : 0 ≤ s.neighbors) (hpd : 1 ≤ s.per_doc)
    (hmp : 100 ≤ s.max_preview_chars) (hms : 120 ≤ s.max_snippet_chars) :
    resolveRetrievalSettings (some (settingsToFilters s)) = s := by
  obtain ⟨cs, ymin, ymax, nb, pd, mp, ms⟩ := s
  dsimp only at hshape hnodup hnb hpd hmp hms
  unfold resolveRetrievalSettings settingsToFilters
  dsimp only [Option.getD]
  have hcontains : dedupFirst (rawContains (some (.vlist (cs.map PyVal.vstr)))) [] = cs := by
    have hraw : rawContains (some (.vlist (cs.map PyVal.vstr)))
        = cs.filterMap (fun t =>
            if pyStrip t = "" then none else some (pyLower (pyStrip t))) := by
      show (cs.map PyVal.vstr).filterMap _ = _
      rw [List.filterMap_map]
      rfl
    rw [hraw, filterMap_contains_id cs hshape]
    exact dedupFirst_of_nodup cs [] hnodup (by simp)
  have hyear : ∀ y : Option Int, toIntPy (y.map PyVal.vint) none none = y := by
    intro y
    cases y with
    | none => rfl
    | some n => rfl
  have hclamp : ∀ (n d m : Int), m ≤ n → toIntPy (some (.vint n)) (some d) (some m) = some n := by
    intro n d m hmn
    unfold toIntPy
    dsimp only [pyIntOf]
    rw [if_neg (by omega)]
  congr 1
  · exact hyear ymin
  · exact hyear ymax
  · rw [hclamp nb 1 0 hnb]
  · rw [hclamp pd 2 1 hpd]
  · rw [hclamp mp 1800 100 hmp]
    dsimp only [pyOrIntD]
    rw [if_neg (by omega)]
  · rw [hclamp ms 500 120 hms]
    dsimp only [pyOrIntD]
    rw [if_neg (by omega)]

/-- C8: `resolve_retrieval_settings` is idempotent — resolving the field
dictionary of an already-resolved settings object returns the same settings. -/
theorem resolve_retrieval_settings_idempotent (x : Option Filters) :
    resolveRetrievalSettings (some (settingsToFilters (resolveRetrievalSettings x)))
      = resolveRetrievalSettings x := by
  have hceq : (resolveRetrievalSettings x).contains
      = dedupFirst (rawContains ((x.getD {}).contains)) [] := rfl
  apply resolve_of_settings
  · intro t ht
    rw [hceq] at ht
    exact rawContains_shape _ t (dedupFirst_subset _ [] t ht)
  · rw [hceq]
    exact dedupFirst_nodup _ []
  · exact resolve_neighbors_nonneg x
  · exact resolve_per_doc_pos x
  · exact resolve_mpc_min x
  · exact resolve_msc_min x

end AIKH
